import Mathlib

/-!
The control interface of the WireGuard network interface, `if_wg.h`.

A shallow embedding of `internal/wgopenbsd/internal/wgh/if_wg.h`: the flag
masks, the request codes and the record declarations of the header, together
with the C layout rules that give the records their offsets and sizes. What
the header takes from system headers is a parameter (`Platform`); what it
leaves to its users (the request-code encoding, the check of an allowed IP,
writing a configuration tree into the buffer and reading it back) is modelled
from the specification and marked so.
-/

namespace IfWg

/-! ## Constants of the header -/

/-- Macro `#define WG_KEY_LEN 32` -/
def WG_KEY_LEN : Nat := 32

/-- Macro `#define WG_INTERFACE_HAS_PUBLIC (1 << 0)` -/
def WG_INTERFACE_HAS_PUBLIC : Nat := 1 <<< 0
/-- Macro `#define WG_INTERFACE_HAS_PRIVATE (1 << 1)` -/
def WG_INTERFACE_HAS_PRIVATE : Nat := 1 <<< 1
/-- Macro `#define WG_INTERFACE_HAS_PORT (1 << 2)` -/
def WG_INTERFACE_HAS_PORT : Nat := 1 <<< 2
/-- Macro `#define WG_INTERFACE_HAS_RTABLE (1 << 3)` -/
def WG_INTERFACE_HAS_RTABLE : Nat := 1 <<< 3
/-- Macro `#define WG_INTERFACE_REPLACE_PEERS (1 << 4)` -/
def WG_INTERFACE_REPLACE_PEERS : Nat := 1 <<< 4

/-- Macro `#define WG_PEER_HAS_PUBLIC (1 << 0)` -/
def WG_PEER_HAS_PUBLIC : Nat := 1 <<< 0
/-- Macro `#define WG_PEER_HAS_PSK (1 << 1)` -/
def WG_PEER_HAS_PSK : Nat := 1 <<< 1
/-- Macro `#define WG_PEER_HAS_PKA (1 << 2)` -/
def WG_PEER_HAS_PKA : Nat := 1 <<< 2
/-- Macro `#define WG_PEER_HAS_ENDPOINT (1 << 3)` -/
def WG_PEER_HAS_ENDPOINT : Nat := 1 <<< 3
/-- Macro `#define WG_PEER_REPLACE_AIPS (1 << 4)` -/
def WG_PEER_REPLACE_AIPS : Nat := 1 <<< 4
/-- Macro `#define WG_PEER_REMOVE (1 << 5)` -/
def WG_PEER_REMOVE : Nat := 1 <<< 5
/-- Macro `#define WG_PEER_UPDATE (1 << 6)` -/
def WG_PEER_UPDATE : Nat := 1 <<< 6

/-- Macro `#define WG_AIP_REMOVE (1 << 0)` -/
def WG_AIP_REMOVE : Nat := 1 <<< 0

/-- The names of the five interface flags of the header. -/
inductive InterfaceFlag where
  | HAS_PUBLIC | HAS_PRIVATE | HAS_PORT | HAS_RTABLE | REPLACE_PEERS
  deriving DecidableEq, Repr

/-- The names of the seven peer flags of the header. -/
inductive PeerFlag where
  | HAS_PUBLIC | HAS_PSK | HAS_PKA | HAS_ENDPOINT | REPLACE_AIPS | REMOVE | UPDATE
  deriving DecidableEq, Repr

/-- The mask the header defines for an interface flag. -/
def InterfaceFlag.mask : InterfaceFlag → Nat
  | .HAS_PUBLIC => WG_INTERFACE_HAS_PUBLIC
  | .HAS_PRIVATE => WG_INTERFACE_HAS_PRIVATE
  | .HAS_PORT => WG_INTERFACE_HAS_PORT
  | .HAS_RTABLE => WG_INTERFACE_HAS_RTABLE
  | .REPLACE_PEERS => WG_INTERFACE_REPLACE_PEERS

/-- The mask the header defines for a peer flag. -/
def PeerFlag.mask : PeerFlag → Nat
  | .HAS_PUBLIC => WG_PEER_HAS_PUBLIC
  | .HAS_PSK => WG_PEER_HAS_PSK
  | .HAS_PKA => WG_PEER_HAS_PKA
  | .HAS_ENDPOINT => WG_PEER_HAS_ENDPOINT
  | .REPLACE_AIPS => WG_PEER_REPLACE_AIPS
  | .REMOVE => WG_PEER_REMOVE
  | .UPDATE => WG_PEER_UPDATE

/-- All interface flags, in the order of the header. -/
def InterfaceFlag.all : List InterfaceFlag :=
  [.HAS_PUBLIC, .HAS_PRIVATE, .HAS_PORT, .HAS_RTABLE, .REPLACE_PEERS]

/-- All peer flags, in the order of the header. -/
def PeerFlag.all : List PeerFlag :=
  [.HAS_PUBLIC, .HAS_PSK, .HAS_PKA, .HAS_ENDPOINT, .REPLACE_AIPS, .REMOVE, .UPDATE]

/-- Encoding of a set of interface flags: the bitwise OR of their masks. -/
def encodeInterfaceFlags (S : List InterfaceFlag) : Nat :=
  S.foldr (fun f acc => f.mask ||| acc) 0

/-- Encoding of a set of peer flags: the bitwise OR of their masks. -/
def encodePeerFlags (S : List PeerFlag) : Nat :=
  S.foldr (fun f acc => f.mask ||| acc) 0

/-- The C test `(flags & mask) != 0`. -/
def hasFlag (flags mask : Nat) : Bool := (flags &&& mask) != 0

/-- The value an unsigned field of `bits` bits holds after `x` is stored in it. -/
def storeUnsigned (bits : Nat) (x : Int) : Int := x % 2 ^ bits

/-- The value a two's-complement signed field of `bits` bits holds after `x`
is stored in it. -/
def storeSigned (bits : Nat) (x : Int) : Int :=
  (x + 2 ^ (bits - 1)) % 2 ^ bits - 2 ^ (bits - 1)

/-! ## C types and layout -/

/-- Types the header takes from the system headers it includes
(`<sys/limits.h>`, `<net/if.h>`, `<netinet/in.h>`); their sizes and
alignments are fixed by the platform, not by the header. -/
inductive SysType where
  | char | int | long | size_t | pointer
  | in_port_t | sa_family_t | time_t
  | sockaddr | sockaddr_in | sockaddr_in6
  | timespec | in_addr | in6_addr
  deriving DecidableEq, Repr

/-- The types that occur in the declarations of the header. -/
inductive CType where
  | uint8_t
  | uint16_t
  | uint64_t
  | sys (t : SysType)
  | ptr (pointee : String)
  | array (elem : CType) (n : Nat)
  | struct (tag : String) (fields : List (String × CType))
  | union (tag : String) (members : List (String × CType))

/-- What the platform fixes: `IFNAMSIZ`, the address-family tags `AF_INET` and
`AF_INET6`, the byte order, the offset of the family tag `sa_family` inside a
socket address, the alignment of the exact-width integers wider than a byte,
and the size and alignment, in bytes, of every system type. -/
structure Platform where
  IFNAMSIZ : Nat
  AF_INET : Int
  AF_INET6 : Int
  big_endian : Bool
  sa_family_offset : Nat
  align_uint16 : Nat
  align_uint64 : Nat
  size : SysType → Nat
  align : SysType → Nat

/-- Modelled from the spec: the target platform, whose system headers are not
part of the header file. LP64 OpenBSD: 8-byte pointers and `size_t`, 4-byte
`int`, 2-byte `in_port_t`, 1-byte `sa_family_t`, 16-byte `sockaddr` and
`sockaddr_in`, 28-byte 4-aligned `sockaddr_in6`, 16-byte 8-aligned
`timespec` made of an 8-byte `time_t` and an 8-byte `long`, 4-byte `in_addr`,
16-byte `in6_addr`, naturally aligned `uint16_t` and `uint64_t`, `IFNAMSIZ`
16, `AF_INET` 2 and `AF_INET6` 24, little-endian, and a socket address that
starts with the byte `sa_len` followed by the family tag `sa_family` at
offset 1. -/
def openbsd_lp64 : Platform where
  IFNAMSIZ := 16
  AF_INET := 2
  AF_INET6 := 24
  big_endian := false
  sa_family_offset := 1
  align_uint16 := 2
  align_uint64 := 8
  size
    | .char => 1 | .int => 4 | .long => 8 | .size_t => 8 | .pointer => 8
    | .in_port_t => 2 | .sa_family_t => 1 | .time_t => 8
    | .sockaddr => 16 | .sockaddr_in => 16 | .sockaddr_in6 => 28
    | .timespec => 16 | .in_addr => 4 | .in6_addr => 16
  align
    | .char => 1 | .int => 4 | .long => 8 | .size_t => 8 | .pointer => 8
    | .in_port_t => 2 | .sa_family_t => 1 | .time_t => 8
    | .sockaddr => 1 | .sockaddr_in => 4 | .sockaddr_in6 => 4
    | .timespec => 8 | .in_addr => 4 | .in6_addr => 4

/-- The next multiple of `a` at or after `off`. -/
def alignUp (off a : Nat) : Nat := (off + a - 1) / a * a

mutual
/-- Operator `sizeof`: exact-width integers have their width, system types the size the
platform gives; an array is `n` elements; a struct ends after its last field
and a union after its largest member, both rounded up to their alignment. -/
def sizeof (P : Platform) : CType → Nat
  | .uint8_t => 1
  | .uint16_t => 2
  | .uint64_t => 8
  | .sys t => P.size t
  | .ptr _ => P.size .pointer
  | .array e n => sizeof P e * n
  | .struct _ fs => alignUp (structEnd P 0 fs) (maxAlign P fs)
  | .union _ ms => alignUp (maxSize P ms) (maxAlign P ms)
/-- Operator `alignof`: a byte is aligned anywhere, the wider exact-width
integers and the system types as the platform says; an array is aligned as its
element, a struct or union as its most aligned member. -/
def alignof (P : Platform) : CType → Nat
  | .uint8_t => 1
  | .uint16_t => P.align_uint16
  | .uint64_t => P.align_uint64
  | .sys t => P.align t
  | .ptr _ => P.align .pointer
  | .array e _ => alignof P e
  | .struct _ fs => maxAlign P fs
  | .union _ ms => maxAlign P ms
/-- The offset right after the last field, the fields being placed in
declaration order from `off`, each at the next multiple of its alignment. -/
def structEnd (P : Platform) (off : Nat) : List (String × CType) → Nat
  | [] => off
  | (_, t) :: rest => structEnd P (alignUp off (alignof P t) + sizeof P t) rest
/-- The largest alignment among the members. -/
def maxAlign (P : Platform) : List (String × CType) → Nat
  | [] => 1
  | (_, t) :: rest => max (alignof P t) (maxAlign P rest)
/-- The largest size among the members. -/
def maxSize (P : Platform) : List (String × CType) → Nat
  | [] => 0
  | (_, t) :: rest => max (sizeof P t) (maxSize P rest)
end

/-- Name, offset and size of every field of a struct placed from `off`. -/
def structLayout (P : Platform) (off : Nat) :
    List (String × CType) → List (String × Nat × Nat)
  | [] => []
  | (name, t) :: rest =>
    (name, alignUp off (alignof P t), sizeof P t) ::
      structLayout P (alignUp off (alignof P t) + sizeof P t) rest

/-- Name, offset and size of every member of a struct or union; a union member
starts at offset 0. -/
def layout (P : Platform) : CType → List (String × Nat × Nat)
  | .struct _ fs => structLayout P 0 fs
  | .union _ ms => ms.map (fun m => (m.1, 0, sizeof P m.2))
  | _ => []

/-- The declared members of a struct or union. -/
def members : CType → List (String × CType)
  | .struct _ fs => fs
  | .union _ ms => ms
  | _ => []

/-- The declared type of member `name`. -/
def memberType (t : CType) (name : String) : Option CType :=
  ((members t).find? (fun m => m.1 == name)).map (fun m => m.2)

/-- The offset of member `name` (`offsetof`). -/
def memberOffset (P : Platform) (t : CType) (name : String) : Option Nat :=
  ((layout P t).find? (fun m => m.1 == name)).map (fun m => m.2.1)

/-- The type reached from `t` by a chain of member selections `a.b.c`. -/
def pathType : CType → List String → Option CType
  | t, [] => some t
  | t, name :: rest =>
    match memberType t name with
    | some u => pathType u rest
    | none => none

/-- The offset, from the start of `t`, of the object reached by a chain of
member selections `a.b.c`. -/
def pathOffset (P : Platform) : CType → List String → Option Nat
  | _, [] => some 0
  | t, name :: rest =>
    match memberOffset P t name, memberType t name with
    | some o, some u => (pathOffset P u rest).map (fun r => o + r)
    | _, _ => none

/-- No two fields overlap: every field ends at or before the next one starts,
and the last one ends inside the record of `size` bytes. -/
def disjointFields (size : Nat) : List (String × Nat × Nat) → Bool
  | [] => true
  | [(_, o, s)] => decide (o + s ≤ size)
  | (_, o, s) :: (n, o', s') :: rest =>
    decide (o + s ≤ o') && disjointFields size ((n, o', s') :: rest)

/-- Whether a type of the header is a signed integer: `int` is the only one. -/
def isSignedInt : CType → Bool
  | .sys .int => true
  | _ => false

/-- The size in bytes of the object reached by a chain of member selections. -/
def pathSize (P : Platform) (t : CType) (path : List String) : Option Nat :=
  (pathType t path).map (sizeof P)

/-- The width in bits of a field (0 when there is no such field). -/
def fieldBits (P : Platform) (t : CType) (path : List String) : Nat :=
  match pathType t path with
  | some u => 8 * sizeof P u
  | none => 0

mutual
/-- The scalar and array fields of a type in declaration order, nested structs
and unions opened up, each with its size in bytes. -/
def leafFields (P : Platform) (name : String) : CType → List (String × Nat)
  | .struct _ fs => leafFieldsOf P fs
  | .union _ ms => leafFieldsOf P ms
  | .uint8_t => [(name, sizeof P .uint8_t)]
  | .uint16_t => [(name, sizeof P .uint16_t)]
  | .uint64_t => [(name, sizeof P .uint64_t)]
  | .sys t => [(name, sizeof P (.sys t))]
  | .ptr q => [(name, sizeof P (.ptr q))]
  | .array e n => [(name, sizeof P (.array e n))]
/-- The leaf fields of a list of members, in order. -/
def leafFieldsOf (P : Platform) : List (String × CType) → List (String × Nat)
  | [] => []
  | (n, t) :: rest => leafFields P n t ++ leafFieldsOf P rest
end

/-! ## The declarations of the header -/

/-- The outer request.
```c
struct wg_data_io {
	char	 wgd_name[IFNAMSIZ];
	size_t	 wgd_size;
	void	*wgd_mem;
};
``` -/
def wg_data_io (P : Platform) : CType :=
  .struct "wg_data_io"
    [("wgd_name", .array (.sys .char) P.IFNAMSIZ),
     ("wgd_size", .sys .size_t),
     ("wgd_mem", .ptr "void")]

/-- The interface record.
```c
struct wg_interface_io {
	uint8_t			 i_flags;
	struct wg_peer_io	*i_peers;
	in_port_t		 i_port;
	int			 i_rtable;
	uint8_t			 i_public[WG_KEY_LEN];
	uint8_t			 i_private[WG_KEY_LEN];
};
``` -/
def wg_interface_io : CType :=
  .struct "wg_interface_io"
    [("i_flags", .uint8_t),
     ("i_peers", .ptr "struct wg_peer_io"),
     ("i_port", .sys .in_port_t),
     ("i_rtable", .sys .int),
     ("i_public", .array .uint8_t WG_KEY_LEN),
     ("i_private", .array .uint8_t WG_KEY_LEN)]

/-- The endpoint of a peer.
```c
union wg_peer_endpoint {
	struct sockaddr		sa_sa;
	struct sockaddr_in	sa_sin;
	struct sockaddr_in6	sa_sin6;
}
``` -/
def wg_peer_endpoint : CType :=
  .union "wg_peer_endpoint"
    [("sa_sa", .sys .sockaddr),
     ("sa_sin", .sys .sockaddr_in),
     ("sa_sin6", .sys .sockaddr_in6)]

/-- The peer record.
```c
struct wg_peer_io {
	int			 p_flags;
	struct wg_peer_io	*p_next;
	struct wg_aip_io	*p_aips;
	int			 p_protocol_version;
	uint8_t			 p_public[WG_KEY_LEN];
	uint8_t			 p_psk[WG_KEY_LEN];
	uint16_t		 p_pka;
	union wg_peer_endpoint { ... } p_endpoint;
	uint64_t		 p_txbytes;
	uint64_t		 p_rxbytes;
	struct timespec		 p_last_handshake;
};
``` -/
def wg_peer_io : CType :=
  .struct "wg_peer_io"
    [("p_flags", .sys .int),
     ("p_next", .ptr "struct wg_peer_io"),
     ("p_aips", .ptr "struct wg_aip_io"),
     ("p_protocol_version", .sys .int),
     ("p_public", .array .uint8_t WG_KEY_LEN),
     ("p_psk", .array .uint8_t WG_KEY_LEN),
     ("p_pka", .uint16_t),
     ("p_endpoint", wg_peer_endpoint),
     ("p_txbytes", .uint64_t),
     ("p_rxbytes", .uint64_t),
     ("p_last_handshake", .sys .timespec)]

/-- Macro `#define p_sa p_endpoint.sa_sa` -/
def p_sa : List String := ["p_endpoint", "sa_sa"]
/-- Macro `#define p_sin p_endpoint.sa_sin` -/
def p_sin : List String := ["p_endpoint", "sa_sin"]
/-- Macro `#define p_sin6 p_endpoint.sa_sin6` -/
def p_sin6 : List String := ["p_endpoint", "sa_sin6"]

/-- The address of an allowed IP.
```c
union wg_aip_addr {
	struct in_addr		addr_ipv4;
	struct in6_addr		addr_ipv6;
}
``` -/
def wg_aip_addr : CType :=
  .union "wg_aip_addr"
    [("addr_ipv4", .sys .in_addr),
     ("addr_ipv6", .sys .in6_addr)]

/-- The prefix of an allowed IP.
```c
struct wg_aip_data {
	sa_family_t		 d_af;
	int			 d_cidr;
	union wg_aip_addr { ... } d_addr;
}
``` -/
def wg_aip_data : CType :=
  .struct "wg_aip_data"
    [("d_af", .sys .sa_family_t),
     ("d_cidr", .sys .int),
     ("d_addr", wg_aip_addr)]

/-- The allowed-IP record.
```c
struct wg_aip_io {
	int			 a_flags;
	struct wg_aip_io	*a_next;
	struct wg_aip_data { ... } a_data;
};
``` -/
def wg_aip_io : CType :=
  .struct "wg_aip_io"
    [("a_flags", .sys .int),
     ("a_next", .ptr "struct wg_aip_io"),
     ("a_data", wg_aip_data)]

/-- Macro `#define a_af a_data.d_af` -/
def a_af : List String := ["a_data", "d_af"]
/-- Macro `#define a_cidr a_data.d_cidr` -/
def a_cidr : List String := ["a_data", "d_cidr"]
/-- Macro `#define a_addr a_data.d_addr` -/
def a_addr : List String := ["a_data", "d_addr"]
/-- Macro `#define a_ipv4 a_addr.addr_ipv4` -/
def a_ipv4 : List String := a_addr ++ ["addr_ipv4"]
/-- Macro `#define a_ipv6 a_addr.addr_ipv6` -/
def a_ipv6 : List String := a_addr ++ ["addr_ipv6"]

/-! ## Request codes -/

/-- Modelled from the spec: `IOC_INOUT` of `<sys/ioccom.h>`, the direction
bits of a read-write code (`0xC0000000`); the macro is not in the header. -/
def IOC_INOUT : Nat := 0xC0000000

/-- Modelled from the spec: `IOCPARM_MASK` of `<sys/ioccom.h>` (`0x1fff`). -/
def IOCPARM_MASK : Nat := 0x1fff

/-- Modelled from the spec: the BSD encoding of a request code,
`inout | ((len & IOCPARM_MASK) << 16) | (group << 8) | num`; the macro is in
`<sys/ioccom.h>`, not in the header. -/
def _IOC (inout group num len : Nat) : Nat :=
  inout ||| ((len &&& IOCPARM_MASK) <<< 16) ||| (group <<< 8) ||| num

/-- Modelled from the spec: `_IOWR(g,n,t) = _IOC(IOC_INOUT, g, n, sizeof(t))`. -/
def _IOWR (P : Platform) (g : Char) (n : Nat) (t : CType) : Nat :=
  _IOC IOC_INOUT g.toNat n (sizeof P t)

/-- Macro `#define SIOCSWG _IOWR('i', 210, struct wg_data_io)` -/
def SIOCSWG (P : Platform) : Nat := _IOWR P 'i' 210 (wg_data_io P)

/-- Macro `#define SIOCGWG _IOWR('i', 211, struct wg_data_io)` -/
def SIOCGWG (P : Platform) : Nat := _IOWR P 'i' 211 (wg_data_io P)

/-- The size of the memory `wgd_mem` points to, by its comment
`wg_interface_io{1},(wg_peer_io,wg_aip_io*)*`: one interface record, then for
every peer its record followed by its allowed-IP records; `aips` lists the
number of allowed IPs of every peer. -/
def wgd_mem_size (P : Platform) (aips : List Nat) : Nat :=
  sizeof P wg_interface_io +
    (aips.map (fun a => sizeof P wg_peer_io + a * sizeof P wg_aip_io)).sum

/-! ## Allowed-IP records and their check -/

/-- Modelled from the spec: the error taxonomy of the transfer contract; the
header carries no status codes. -/
inductive Error where
  | NotFound | BufferTooSmall | InvalidArgument | PermissionDenied
  deriving DecidableEq, Repr

/-- Modelled from the spec: an Allowed-IP record of the data model, with its
flags, address-family tag, prefix length and address payload (a list of
bytes); the header only declares the C struct it travels in. -/
structure AllowedIPRecord where
  flags : Int
  af : Int
  cidr : Int
  addr : List Int
  deriving DecidableEq, Repr

/-- Modelled from the spec: the check of family tag, payload and prefix length
of an Allowed-IP record, which the header leaves to its users. Tag `INET`
goes with a payload of exactly 4 bytes and a prefix length of at most 32, tag
`INET6` with 16 bytes and at most 128; any other combination is rejected with
`InvalidArgument`. -/
def check_aip (P : Platform) (r : AllowedIPRecord) : Except Error Unit :=
  if r.af = P.AF_INET then
    if r.addr.length = 4 ∧ r.cidr ≤ 32 then .ok () else .error .InvalidArgument
  else if r.af = P.AF_INET6 then
    if r.addr.length = 16 ∧ r.cidr ≤ 128 then .ok () else .error .InvalidArgument
  else .error .InvalidArgument

/-- The combinations of family tag, payload and prefix length the spec allows. -/
def allowed_combination (P : Platform) (r : AllowedIPRecord) : Prop :=
  (r.af = P.AF_INET ∧ r.addr.length = 4 ∧ r.cidr ≤ 32) ∨
  (r.af = P.AF_INET6 ∧ r.addr.length = 16 ∧ r.cidr ≤ 128)

/-! ## The configuration tree -/

/-- Modelled from the spec: the tagged endpoint of a peer, one of
unspecified, an IPv4 socket address and an IPv6 socket address, the socket
addresses as raw bytes. -/
inductive Endpoint where
  | unspecified
  | ipv4 (sin : List Int)
  | ipv6 (sin6 : List Int)
  deriving DecidableEq, Repr

/-- Modelled from the spec: a Peer record of the data model, owning the
ordered sequence of its Allowed-IP records. -/
structure PeerRecord where
  flags : Int
  protocol_version : Int
  public_key : List Int
  psk : List Int
  pka : Int
  endpoint : Endpoint
  txbytes : Int
  rxbytes : Int
  last_handshake : Int × Int
  aips : List AllowedIPRecord
  deriving DecidableEq, Repr

/-- Modelled from the spec: the Interface record of the data model, owning the
ordered sequence of its Peer records. -/
structure InterfaceRecord where
  flags : Int
  port : Int
  rtable : Int
  public_key : List Int
  private_key : List Int
  peers : List PeerRecord
  deriving DecidableEq, Repr

/-! ## Values of the C records -/

/-- A value of `struct wg_aip_io`, `a_data` opened up; `a_next` is an address,
0 for `NULL`, and `d_addr` the bytes of the union. -/
structure wg_aip_io_value where
  a_flags : Int
  a_next : Nat
  d_af : Int
  d_cidr : Int
  d_addr : List Int
  deriving DecidableEq, Repr

/-- A value of `struct wg_peer_io`; `p_next` and `p_aips` are addresses, 0 for
`NULL`, `p_endpoint` the bytes of the union, which carries no tag of its own,
and `p_last_handshake` the members `tv_sec` and `tv_nsec` of the
`struct timespec`. -/
structure wg_peer_io_value where
  p_flags : Int
  p_next : Nat
  p_aips : Nat
  p_protocol_version : Int
  p_public : List Int
  p_psk : List Int
  p_pka : Int
  p_endpoint : List Int
  p_txbytes : Int
  p_rxbytes : Int
  p_last_handshake : Int × Int
  deriving DecidableEq, Repr

/-- A value of `struct wg_interface_io`; `i_peers` is an address, 0 for `NULL`. -/
structure wg_interface_io_value where
  i_flags : Int
  i_peers : Nat
  i_port : Int
  i_rtable : Int
  i_public : List Int
  i_private : List Int
  deriving DecidableEq, Repr

/-- One record of the memory `wgd_mem` points to. -/
inductive Cell where
  | interface (v : wg_interface_io_value)
  | peer (v : wg_peer_io_value)
  | aip (v : wg_aip_io_value)
  deriving DecidableEq, Repr

/-- The bytes a record takes: the size of its struct. -/
def Cell.size (P : Platform) : Cell → Nat
  | .interface _ => sizeof P wg_interface_io
  | .peer _ => sizeof P wg_peer_io
  | .aip _ => sizeof P wg_aip_io

/-- The bytes a sequence of records takes when laid out back to back. -/
def bufferSize (P : Platform) (buf : List Cell) : Nat :=
  (buf.map (Cell.size P)).sum

/-- The record that starts at address `addr`, the records of the buffer being
laid out back to back from address `cur`; none when no record starts there, in
particular past the end of the buffer. -/
def readAt (P : Platform) (cur : Nat) : List Cell → Nat → Option Cell
  | [], _ => none
  | c :: rest, addr => if addr = cur then some c else readAt P (cur + c.size P) rest addr

/-! ## Storing values in fields -/

/-- The value a field of the declared type holds after `x` is stored in it:
truncated to the width of the type, signed for `int`. -/
def storeField (P : Platform) (t : CType) (path : List String) (x : Int) : Int :=
  match pathType t path with
  | some u =>
    if isSignedInt u then storeSigned (8 * sizeof P u) x else storeUnsigned (8 * sizeof P u) x
  | none => x

/-- Whether `x` is a value of the field: within the range of its declared
type. -/
def fitsField (P : Platform) (t : CType) (path : List String) (x : Int) : Bool :=
  match pathType t path with
  | some u =>
    if isSignedInt u then
      decide (0 < sizeof P u ∧ -(2 ^ (8 * sizeof P u - 1)) ≤ x ∧ x < 2 ^ (8 * sizeof P u - 1))
    else decide (0 ≤ x ∧ x < 2 ^ (8 * sizeof P u))
  | none => false

/-- The contents of a byte array of `n` elements after the bytes `xs` are
copied to its start: every element truncated to 8 bits, the rest zero. -/
def storeBytes : Nat → List Int → List Int
  | 0, _ => []
  | n + 1, [] => 0 :: storeBytes n []
  | n + 1, x :: xs => storeUnsigned 8 x :: storeBytes n xs

/-- The address a pointer field holds after `addr` is stored in it: truncated
to the width of a pointer. -/
def storePointer (P : Platform) (addr : Nat) : Nat :=
  addr % 2 ^ (8 * sizeof P (.ptr "void"))

/-- Whether every element is a byte, 0..255. -/
def fitsBytes (xs : List Int) : Bool :=
  xs.all (fun x => decide (0 ≤ x ∧ x < 256))

/-- The size in bytes of a field (0 when there is no such field). -/
def fieldSize (P : Platform) (t : CType) (path : List String) : Nat :=
  (pathSize P t path).getD 0

/-- The unsigned integer a sequence of bytes holds, least significant byte
first. -/
def decodeLE : List Int → Int
  | [] => 0
  | b :: rest => b + 256 * decodeLE rest

/-- The unsigned integer a sequence of bytes holds in the byte order of the
platform. -/
def readUnsigned (P : Platform) (bytes : List Int) : Int :=
  if P.big_endian then decodeLE bytes.reverse else decodeLE bytes

/-- The family tag of a socket address: the member `sa_family`, of type
`sa_family_t`, read from the bytes of the address at the offset the platform
gives it; this is what `p_sa.sa_family` reads from a `union wg_peer_endpoint`,
whichever member was written. -/
def sa_family (P : Platform) (bytes : List Int) : Int :=
  readUnsigned P
    ((List.range (sizeof P (.sys .sa_family_t))).map
      (fun k => bytes.getD (P.sa_family_offset + k) 0))

/-- Whether `x` is a value of a signed integer of `size` bytes. -/
def fitsSigned (size : Nat) (x : Int) : Bool :=
  decide (0 < size ∧ -(2 ^ (8 * size - 1)) ≤ x ∧ x < 2 ^ (8 * size - 1))

/-! ## Serializing the tree -/

/-- Modelled from the spec: an Allowed-IP record written as a
`struct wg_aip_io`, `next` being the address of the next record of the list;
the header declares the struct and leaves the writing to its users. -/
def store_aip (P : Platform) (a : AllowedIPRecord) (next : Nat) : wg_aip_io_value where
  a_flags := storeField P wg_aip_io ["a_flags"] a.flags
  a_next := storePointer P next
  d_af := storeField P wg_aip_io a_af a.af
  d_cidr := storeField P wg_aip_io a_cidr a.cidr
  d_addr := storeBytes (fieldSize P wg_aip_io a_addr) a.addr

/-- Modelled from the spec: the endpoint written into
`union wg_peer_endpoint`: the bytes of the socket address at the start of the
union, the rest zero; an unspecified endpoint leaves the union zeroed. The
union keeps no record of which member was written. -/
def store_endpoint (P : Platform) : Endpoint → List Int
  | .unspecified => storeBytes (fieldSize P wg_peer_io ["p_endpoint"]) []
  | .ipv4 sin => storeBytes (fieldSize P wg_peer_io ["p_endpoint"]) sin
  | .ipv6 sin6 => storeBytes (fieldSize P wg_peer_io ["p_endpoint"]) sin6

/-- Modelled from the spec: a Peer record written as a `struct wg_peer_io`,
`next` and `aips` being the addresses of the next peer and of the first
allowed IP. -/
def store_peer (P : Platform) (p : PeerRecord) (next aips : Nat) : wg_peer_io_value where
  p_flags := storeField P wg_peer_io ["p_flags"] p.flags
  p_next := storePointer P next
  p_aips := storePointer P aips
  p_protocol_version := storeField P wg_peer_io ["p_protocol_version"] p.protocol_version
  p_public := storeBytes (fieldSize P wg_peer_io ["p_public"]) p.public_key
  p_psk := storeBytes (fieldSize P wg_peer_io ["p_psk"]) p.psk
  p_pka := storeField P wg_peer_io ["p_pka"] p.pka
  p_endpoint := store_endpoint P p.endpoint
  p_txbytes := storeField P wg_peer_io ["p_txbytes"] p.txbytes
  p_rxbytes := storeField P wg_peer_io ["p_rxbytes"] p.rxbytes
  p_last_handshake :=
    (storeSigned (8 * sizeof P (.sys .time_t)) p.last_handshake.1,
      storeSigned (8 * sizeof P (.sys .long)) p.last_handshake.2)

/-- Modelled from the spec: the Interface record written as a
`struct wg_interface_io`, `peers` being the address of the first peer. -/
def store_interface (P : Platform) (t : InterfaceRecord) (peers : Nat) :
    wg_interface_io_value where
  i_flags := storeField P wg_interface_io ["i_flags"] t.flags
  i_peers := storePointer P peers
  i_port := storeField P wg_interface_io ["i_port"] t.port
  i_rtable := storeField P wg_interface_io ["i_rtable"] t.rtable
  i_public := storeBytes (fieldSize P wg_interface_io ["i_public"]) t.public_key
  i_private := storeBytes (fieldSize P wg_interface_io ["i_private"]) t.private_key

/-- Modelled from the spec: the allowed IPs of a peer written back to back
from address `addr`, each linked to the next, the last to `NULL`. -/
def serialize_aips (P : Platform) (addr : Nat) : List AllowedIPRecord → List Cell
  | [] => []
  | a :: rest =>
    .aip (store_aip P a (if rest = [] then 0 else addr + sizeof P wg_aip_io)) ::
      serialize_aips P (addr + sizeof P wg_aip_io) rest

/-- Modelled from the spec: the peers written from address `addr`, each peer
record followed by its allowed IPs and then by the next peer, each linked to
the next, the last to `NULL`. -/
def serialize_peers (P : Platform) (addr : Nat) : List PeerRecord → List Cell
  | [] => []
  | p :: rest =>
    .peer (store_peer P p
        (if rest = [] then 0
          else addr + sizeof P wg_peer_io + p.aips.length * sizeof P wg_aip_io)
        (if p.aips = [] then 0 else addr + sizeof P wg_peer_io)) ::
      (serialize_aips P (addr + sizeof P wg_peer_io) p.aips ++
        serialize_peers P
          (addr + sizeof P wg_peer_io + p.aips.length * sizeof P wg_aip_io) rest)

/-- Modelled from the spec: the tree written into the memory at address
`base` in the order the comment on `wgd_mem` documents,
`wg_interface_io{1},(wg_peer_io,wg_aip_io*)*`. -/
def serialize (P : Platform) (base : Nat) (t : InterfaceRecord) : List Cell :=
  .interface (store_interface P t
      (if t.peers = [] then 0 else base + sizeof P wg_interface_io)) ::
    serialize_peers P (base + sizeof P wg_interface_io) t.peers

/-! ## Deserializing the buffer -/

/-- Modelled from the spec: an Allowed-IP record read from a
`struct wg_aip_io`; the family tag selects how many bytes of the address
union are the payload, and a combination that fails the check is rejected. -/
def load_aip (P : Platform) (v : wg_aip_io_value) : Except Error AllowedIPRecord :=
  let n := if v.d_af = P.AF_INET then 4 else if v.d_af = P.AF_INET6 then 16 else 0
  let r : AllowedIPRecord :=
    { flags := v.a_flags, af := v.d_af, cidr := v.d_cidr, addr := v.d_addr.take n }
  match check_aip P r with
  | .ok _ => .ok r
  | .error e => .error e

/-- Modelled from the spec: the endpoint read from the bytes of
`union wg_peer_endpoint`. The family tag inside the socket address tells the
kind: INET is an IPv4 socket address, the bytes of `p_sin`, INET6 an IPv6
socket address, the bytes of `p_sin6`, and any other tag is no endpoint. -/
def load_endpoint (P : Platform) (bytes : List Int) : Endpoint :=
  if sa_family P bytes = P.AF_INET then .ipv4 (bytes.take (fieldSize P wg_peer_io p_sin))
  else if sa_family P bytes = P.AF_INET6 then
    .ipv6 (bytes.take (fieldSize P wg_peer_io p_sin6))
  else .unspecified

/-- Modelled from the spec: a Peer record read from a `struct wg_peer_io`,
given the allowed IPs its list holds. -/
def load_peer (P : Platform) (v : wg_peer_io_value) (aips : List AllowedIPRecord) :
    PeerRecord where
  flags := v.p_flags
  protocol_version := v.p_protocol_version
  public_key := v.p_public
  psk := v.p_psk
  pka := v.p_pka
  endpoint := load_endpoint P v.p_endpoint
  txbytes := v.p_txbytes
  rxbytes := v.p_rxbytes
  last_handshake := v.p_last_handshake
  aips := aips

/-- Modelled from the spec: the Interface record read from a
`struct wg_interface_io`, given the peers its list holds. -/
def load_interface (v : wg_interface_io_value) (peers : List PeerRecord) :
    InterfaceRecord where
  flags := v.i_flags
  port := v.i_port
  rtable := v.i_rtable
  public_key := v.i_public
  private_key := v.i_private
  peers := peers

/-- Modelled from the spec: the list of allowed IPs that starts at address
`addr`, followed through `a_next` up to `NULL`. A link that does not lead to
an allowed-IP record of the buffer is rejected, and so is a list longer than
`fuel` records (a list inside the buffer that is longer than the buffer has a
cycle). -/
def parse_aips (P : Platform) (base : Nat) (buf : List Cell) :
    Nat → Nat → Except Error (List AllowedIPRecord)
  | 0, addr => if addr = 0 then .ok [] else .error .InvalidArgument
  | fuel + 1, addr =>
    if addr = 0 then .ok []
    else
      match readAt P base buf addr with
      | some (.aip v) =>
        match load_aip P v with
        | .ok a =>
          match parse_aips P base buf fuel v.a_next with
          | .ok rest => .ok (a :: rest)
          | .error e => .error e
        | .error e => .error e
      | _ => .error .InvalidArgument

/-- Modelled from the spec: the list of peers that starts at address `addr`,
followed through `p_next` up to `NULL`, every peer with the allowed IPs its
`p_aips` leads to. -/
def parse_peers (P : Platform) (base : Nat) (buf : List Cell) :
    Nat → Nat → Except Error (List PeerRecord)
  | 0, addr => if addr = 0 then .ok [] else .error .InvalidArgument
  | fuel + 1, addr =>
    if addr = 0 then .ok []
    else
      match readAt P base buf addr with
      | some (.peer v) =>
        match parse_aips P base buf buf.length v.p_aips with
        | .ok aips =>
          match parse_peers P base buf fuel v.p_next with
          | .ok rest => .ok (load_peer P v aips :: rest)
          | .error e => .error e
        | .error e => .error e
      | _ => .error .InvalidArgument

/-- Modelled from the spec: the tree read back from the memory at address
`base`: the interface record at its start, then the peers `i_peers` leads
to. -/
def deserialize (P : Platform) (base : Nat) (buf : List Cell) : Except Error InterfaceRecord :=
  match readAt P base buf base with
  | some (.interface v) =>
    match parse_peers P base buf buf.length v.i_peers with
    | .ok peers => .ok (load_interface v peers)
    | .error e => .error e
  | _ => .error .InvalidArgument

/-! ## Valid trees -/

/-- An Allowed-IP record built from a valid field combination: every field
within the range of its C field, the payload made of bytes that fit the
address union, and family tag, payload and prefix length passing the check. -/
def valid_aip (P : Platform) (a : AllowedIPRecord) : Bool :=
  fitsField P wg_aip_io ["a_flags"] a.flags &&
  fitsField P wg_aip_io a_af a.af &&
  fitsField P wg_aip_io a_cidr a.cidr &&
  fitsBytes a.addr &&
  decide (a.addr.length ≤ fieldSize P wg_aip_io a_addr) &&
  (match check_aip P a with
    | .ok _ => true
    | .error _ => false)

/-- An endpoint whose socket address is made of bytes, has the size of its
member of the union, and carries the family tag of its kind: INET in an IPv4
socket address, INET6 in an IPv6 one. -/
def valid_endpoint (P : Platform) : Endpoint → Bool
  | .unspecified => true
  | .ipv4 sin =>
    fitsBytes sin && decide (sin.length = fieldSize P wg_peer_io p_sin) &&
      decide (sa_family P sin = P.AF_INET)
  | .ipv6 sin6 =>
    fitsBytes sin6 && decide (sin6.length = fieldSize P wg_peer_io p_sin6) &&
      decide (sa_family P sin6 = P.AF_INET6)

/-- A Peer record built from a valid field combination: every field within
the range of its C field, the seconds and nanoseconds of the timestamp within
the ranges of `time_t` and `long`. -/
def valid_peer (P : Platform) (p : PeerRecord) : Bool :=
  fitsField P wg_peer_io ["p_flags"] p.flags &&
  fitsField P wg_peer_io ["p_protocol_version"] p.protocol_version &&
  fitsBytes p.public_key &&
  decide (p.public_key.length = fieldSize P wg_peer_io ["p_public"]) &&
  fitsBytes p.psk &&
  decide (p.psk.length = fieldSize P wg_peer_io ["p_psk"]) &&
  fitsField P wg_peer_io ["p_pka"] p.pka &&
  valid_endpoint P p.endpoint &&
  fitsField P wg_peer_io ["p_txbytes"] p.txbytes &&
  fitsField P wg_peer_io ["p_rxbytes"] p.rxbytes &&
  fitsSigned (sizeof P (.sys .time_t)) p.last_handshake.1 &&
  fitsSigned (sizeof P (.sys .long)) p.last_handshake.2 &&
  p.aips.all (valid_aip P)

/-- An Interface record tree built from valid field combinations. -/
def valid_interface (P : Platform) (t : InterfaceRecord) : Bool :=
  fitsField P wg_interface_io ["i_flags"] t.flags &&
  fitsField P wg_interface_io ["i_port"] t.port &&
  fitsField P wg_interface_io ["i_rtable"] t.rtable &&
  fitsBytes t.public_key &&
  decide (t.public_key.length = fieldSize P wg_interface_io ["i_public"]) &&
  fitsBytes t.private_key &&
  decide (t.private_key.length = fieldSize P wg_interface_io ["i_private"]) &&
  t.peers.all (valid_peer P)

/-- The kinds of record, for the order of the buffer. -/
inductive CellKind where
  | interface | peer | aip
  deriving DecidableEq, Repr

/-- The kind of a record. -/
def Cell.kind : Cell → CellKind
  | .interface _ => .interface
  | .peer _ => .peer
  | .aip _ => .aip

/-- The order of the records the comment on `wgd_mem` documents,
`wg_interface_io{1},(wg_peer_io,wg_aip_io*)*`; `aips` lists the number of
allowed IPs of every peer. -/
def documentedOrder (aips : List Nat) : List CellKind :=
  .interface :: aips.foldr (fun n acc => .peer :: (List.replicate n .aip ++ acc)) []

/-- A tree to try the round trip on: a peer with an IPv4 and an IPv6 prefix
and an IPv4 endpoint, and a peer without prefixes to be removed. -/
def exampleTree : InterfaceRecord where
  flags := 7
  port := 51820
  rtable := 0
  public_key := List.replicate 32 17
  private_key := List.replicate 32 34
  peers :=
    [{ flags := 0x5b, protocol_version := 1,
       public_key := List.replicate 32 51, psk := List.replicate 32 0,
       pka := 25, endpoint := .ipv4 (16 :: 2 :: List.replicate 14 9),
       txbytes := 1000, rxbytes := 2000, last_handshake := (1600000000, 5),
       aips := [⟨0, 2, 24, [192, 168, 1, 0]⟩,
                ⟨1, 24, 64, 32 :: 1 :: 13 :: 184 :: List.replicate 12 0⟩] },
     { flags := 0x21, protocol_version := 0,
       public_key := List.replicate 32 68, psk := List.replicate 32 0,
       pka := 0, endpoint := .unspecified,
       txbytes := 0, rxbytes := 0, last_handshake := (0, 0),
       aips := [] }]

/-! ## Flag lemmas -/

theorem or_eq_zero_iff (a b : Nat) : a ||| b = 0 ↔ a = 0 ∧ b = 0 := by
  constructor
  · intro h
    have bits : ∀ i, (a.testBit i || b.testBit i) = false := by
      intro i
      rw [← Nat.testBit_or, h, Nat.zero_testBit]
    constructor
    · apply Nat.eq_of_testBit_eq
      intro i
      have := bits i
      rw [Bool.or_eq_false_iff] at this
      rw [this.1, Nat.zero_testBit]
    · apply Nat.eq_of_testBit_eq
      intro i
      have := bits i
      rw [Bool.or_eq_false_iff] at this
      rw [this.2, Nat.zero_testBit]
  · rintro ⟨rfl, rfl⟩
    rfl

theorem hasFlag_or (a b m : Nat) :
    hasFlag (a ||| b) m = (hasFlag a m || hasFlag b m) := by
  rw [Bool.eq_iff_iff]
  simp only [hasFlag, Nat.and_distrib_right, Bool.or_eq_true, bne_iff_ne, ne_eq,
    or_eq_zero_iff]
  tauto

theorem hasFlag_zero (m : Nat) : hasFlag 0 m = false := by
  simp [hasFlag]

theorem InterfaceFlag.hasFlag_interface_mask (g f : InterfaceFlag) :
    hasFlag g.mask f.mask = true ↔ f = g := by
  cases g <;> cases f <;> decide

theorem PeerFlag.hasFlag_peer_mask (g f : PeerFlag) :
    hasFlag g.mask f.mask = true ↔ f = g := by
  cases g <;> cases f <;> decide

theorem InterfaceFlag.interface_mask_lt (f : InterfaceFlag) : f.mask < 2 ^ 5 := by
  cases f <;> decide

theorem PeerFlag.peer_mask_lt (f : PeerFlag) : f.mask < 2 ^ 7 := by
  cases f <;> decide

theorem hasFlag_encodeInterfaceFlags (S : List InterfaceFlag) (f : InterfaceFlag) :
    hasFlag (encodeInterfaceFlags S) f.mask = true ↔ f ∈ S := by
  induction S with
  | nil => simp [encodeInterfaceFlags, hasFlag_zero]
  | cons g rest ih =>
    have step : encodeInterfaceFlags (g :: rest) = g.mask ||| encodeInterfaceFlags rest := rfl
    rw [step, hasFlag_or, Bool.or_eq_true, ih, InterfaceFlag.hasFlag_interface_mask, List.mem_cons]

theorem hasFlag_encodePeerFlags (S : List PeerFlag) (f : PeerFlag) :
    hasFlag (encodePeerFlags S) f.mask = true ↔ f ∈ S := by
  induction S with
  | nil => simp [encodePeerFlags, hasFlag_zero]
  | cons g rest ih =>
    have step : encodePeerFlags (g :: rest) = g.mask ||| encodePeerFlags rest := rfl
    rw [step, hasFlag_or, Bool.or_eq_true, ih, PeerFlag.hasFlag_peer_mask, List.mem_cons]

theorem encodeInterfaceFlags_lt (S : List InterfaceFlag) : encodeInterfaceFlags S < 2 ^ 5 := by
  induction S with
  | nil => decide
  | cons g rest ih => exact Nat.or_lt_two_pow g.interface_mask_lt ih

theorem encodePeerFlags_lt (S : List PeerFlag) : encodePeerFlags S < 2 ^ 7 := by
  induction S with
  | nil => decide
  | cons g rest ih => exact Nat.or_lt_two_pow g.peer_mask_lt ih

/-! ## The flag masks -/

/-- C1: the five interface flag masks are the single-bit values 1, 2, 4, 8 and
16, the bitwise AND of two different masks is 0, and for every set `S` of
interface flags the OR of the masks in `S` has the bit of flag `f` set if and
only if `f` is in `S`. -/
theorem interface_flag_masks :
    (WG_INTERFACE_HAS_PUBLIC = 2 ^ 0 ∧ WG_INTERFACE_HAS_PRIVATE = 2 ^ 1 ∧
      WG_INTERFACE_HAS_PORT = 2 ^ 2 ∧ WG_INTERFACE_HAS_RTABLE = 2 ^ 3 ∧
      WG_INTERFACE_REPLACE_PEERS = 2 ^ 4) ∧
    InterfaceFlag.all.map InterfaceFlag.mask = [1, 2, 4, 8, 16] ∧
    (∀ f : InterfaceFlag, f ∈ InterfaceFlag.all) ∧
    (∀ f g : InterfaceFlag, f ≠ g → f.mask &&& g.mask = 0) ∧
    (∀ (S : List InterfaceFlag) (f : InterfaceFlag),
      hasFlag (encodeInterfaceFlags S) f.mask = true ↔ f ∈ S) := by
  refine ⟨by decide, by decide, ?_, ?_, hasFlag_encodeInterfaceFlags⟩
  · intro f; cases f <;> decide
  · intro f g; cases f <;> cases g <;> decide

/-- C2: the seven peer flag masks are the single-bit values 1, 2, 4, 8, 16, 32
and 64, the bitwise AND of two different masks is 0, and for every set `S` of
peer flags the OR of the masks in `S` has the bit of flag `f` set if and only
if `f` is in `S`; so adding or dropping one of "remove", "update" and
"replace allowed-IPs" changes no other flag's bit. -/
theorem peer_flag_masks :
    (WG_PEER_HAS_PUBLIC = 2 ^ 0 ∧ WG_PEER_HAS_PSK = 2 ^ 1 ∧ WG_PEER_HAS_PKA = 2 ^ 2 ∧
      WG_PEER_HAS_ENDPOINT = 2 ^ 3 ∧ WG_PEER_REPLACE_AIPS = 2 ^ 4 ∧
      WG_PEER_REMOVE = 2 ^ 5 ∧ WG_PEER_UPDATE = 2 ^ 6) ∧
    PeerFlag.all.map PeerFlag.mask = [1, 2, 4, 8, 16, 32, 64] ∧
    (∀ f : PeerFlag, f ∈ PeerFlag.all) ∧
    (∀ f g : PeerFlag, f ≠ g → f.mask &&& g.mask = 0) ∧
    (∀ (S : List PeerFlag) (f : PeerFlag),
      hasFlag (encodePeerFlags S) f.mask = true ↔ f ∈ S) ∧
    (∀ (S : List PeerFlag) (a f : PeerFlag), f ≠ a →
      hasFlag (encodePeerFlags (a :: S)) f.mask = hasFlag (encodePeerFlags S) f.mask ∧
      hasFlag (encodePeerFlags (S.filter (fun x => x != a))) f.mask =
        hasFlag (encodePeerFlags S) f.mask) := by
  refine ⟨by decide, by decide, ?_, ?_, hasFlag_encodePeerFlags, ?_⟩
  · intro f; cases f <;> decide
  · intro f g; cases f <;> cases g <;> decide
  · intro S a f hfa
    constructor
    · rw [Bool.eq_iff_iff, hasFlag_encodePeerFlags, hasFlag_encodePeerFlags, List.mem_cons]
      simp [hfa]
    · rw [Bool.eq_iff_iff, hasFlag_encodePeerFlags, hasFlag_encodePeerFlags, List.mem_filter]
      simp [hfa]

/-! ## Layout lemmas -/

theorem le_alignUp (x a : Nat) (ha : 0 < a) : x ≤ alignUp x a := by
  unfold alignUp
  have h1 := Nat.div_add_mod (x + a - 1) a
  have h2 := Nat.mod_lt (x + a - 1) ha
  have h3 : (x + a - 1) / a * a = a * ((x + a - 1) / a) := Nat.mul_comm _ _
  omega

theorem maxAlign_pos (P : Platform) (ms : List (String × CType)) : 0 < maxAlign P ms := by
  cases ms with
  | nil => simp [maxAlign]
  | cons m rest =>
    obtain ⟨n, t⟩ := m
    simp only [maxAlign]
    have : 0 < maxAlign P rest := maxAlign_pos P rest
    omega

theorem testBit_low_IOC (inout group num len i : Nat) (hi : 8 ≤ i) (hn : num < 2 ^ 8) :
    (_IOC inout group num len).testBit i =
      (inout ||| ((len &&& IOCPARM_MASK) <<< 16) ||| (group <<< 8)).testBit i := by
  have : num < 2 ^ i := Nat.lt_of_lt_of_le hn (Nat.pow_le_pow_right (by decide) hi)
  simp [_IOC, Nat.testBit_lt_two_pow this]

theorem testBit_zero_IOC (group num len : Nat) :
    (_IOC IOC_INOUT group num len).testBit 0 = num.testBit 0 := by
  simp [_IOC, IOC_INOUT, Nat.testBit_shiftLeft]

theorem wgd_mem_size_openbsd (aips : List Nat) :
    wgd_mem_size openbsd_lp64 aips = 88 + 160 * aips.length + 40 * aips.sum := by
  have h1 : sizeof openbsd_lp64 wg_interface_io = 88 := by decide
  have h2 : sizeof openbsd_lp64 wg_peer_io = 160 := by decide
  have h3 : sizeof openbsd_lp64 wg_aip_io = 40 := by decide
  unfold wgd_mem_size
  rw [h1, h2, h3]
  induction aips with
  | nil => rfl
  | cons a rest ih =>
    simp only [List.map_cons, List.sum_cons, List.length_cons] at ih ⊢
    omega

/-! ## The request codes -/

/-- C3: SIOCSWG and SIOCGWG are `_IOWR` codes of group 'i' over
`struct wg_data_io` with numbers 210 and 211; under the BSD encoding they are
unequal and agree on every bit above the low byte, whatever the size of
`struct wg_data_io`; with `IFNAMSIZ` 16 and 8-byte `size_t` and pointers the
struct has 32 bytes and the codes are 0xC02069D2 and 0xC02069D3. -/
theorem request_codes :
    (∀ P : Platform, SIOCSWG P = _IOWR P 'i' 210 (wg_data_io P) ∧
      SIOCGWG P = _IOWR P 'i' 211 (wg_data_io P)) ∧
    (∀ P : Platform, ∀ g n t, _IOWR P g n t =
      0xC0000000 ||| ((sizeof P t &&& 0x1fff) <<< 16) ||| (g.toNat <<< 8) ||| n) ∧
    (∀ len : Nat, _IOC IOC_INOUT 'i'.toNat 210 len ≠ _IOC IOC_INOUT 'i'.toNat 211 len ∧
      ∀ i, 8 ≤ i → (_IOC IOC_INOUT 'i'.toNat 210 len).testBit i =
        (_IOC IOC_INOUT 'i'.toNat 211 len).testBit i) ∧
    (∀ P : Platform, SIOCSWG P ≠ SIOCGWG P ∧
      ∀ i, 8 ≤ i → (SIOCSWG P).testBit i = (SIOCGWG P).testBit i) ∧
    sizeof openbsd_lp64 (wg_data_io openbsd_lp64) = 32 ∧
    SIOCSWG openbsd_lp64 = 0xC02069D2 ∧ SIOCGWG openbsd_lp64 = 0xC02069D3 := by
  have key : ∀ len : Nat, _IOC IOC_INOUT 'i'.toNat 210 len ≠ _IOC IOC_INOUT 'i'.toNat 211 len ∧
      ∀ i, 8 ≤ i → (_IOC IOC_INOUT 'i'.toNat 210 len).testBit i =
        (_IOC IOC_INOUT 'i'.toNat 211 len).testBit i := by
    intro len
    constructor
    · intro h
      have h0 := congrArg (fun x => x.testBit 0) h
      simp only [testBit_zero_IOC] at h0
      exact absurd h0 (by decide)
    · intro i hi
      rw [testBit_low_IOC _ _ _ _ i hi (by decide), testBit_low_IOC _ _ _ _ i hi (by decide)]
  refine ⟨fun P => ⟨rfl, rfl⟩, fun P g n t => rfl, key, fun P => key _, by decide, by decide,
    by decide⟩

/-! ## The fields of the records -/

/-- C4: every OR of interface flags lies in 0..31 and is unchanged when stored
in the 1-byte unsigned `i_flags`; every OR of peer flags lies in 0..127 and is
unchanged, and non-negative, when stored in the 4-byte signed `p_flags`; and
`WG_AIP_REMOVE` is 1, unchanged and non-negative in the 4-byte signed
`a_flags`. -/
theorem flags_fit_their_fields :
    (pathType wg_interface_io ["i_flags"] = some .uint8_t ∧
      fieldBits openbsd_lp64 wg_interface_io ["i_flags"] = 8 ∧
      ∀ S : List InterfaceFlag, encodeInterfaceFlags S ≤ 31 ∧
        encodeInterfaceFlags S % 256 = encodeInterfaceFlags S ∧
        storeUnsigned (fieldBits openbsd_lp64 wg_interface_io ["i_flags"])
          (encodeInterfaceFlags S) = encodeInterfaceFlags S) ∧
    (pathType wg_peer_io ["p_flags"] = some (.sys .int) ∧
      fieldBits openbsd_lp64 wg_peer_io ["p_flags"] = 32 ∧
      ∀ S : List PeerFlag, encodePeerFlags S ≤ 127 ∧
        storeSigned (fieldBits openbsd_lp64 wg_peer_io ["p_flags"])
          (encodePeerFlags S) = encodePeerFlags S ∧
        0 ≤ storeSigned (fieldBits openbsd_lp64 wg_peer_io ["p_flags"])
          (encodePeerFlags S)) ∧
    (pathType wg_aip_io ["a_flags"] = some (.sys .int) ∧
      fieldBits openbsd_lp64 wg_aip_io ["a_flags"] = 32 ∧
      WG_AIP_REMOVE = 1 ∧
      storeSigned (fieldBits openbsd_lp64 wg_aip_io ["a_flags"]) WG_AIP_REMOVE = 1) := by
  have hi : fieldBits openbsd_lp64 wg_interface_io ["i_flags"] = 8 := by decide
  have hp : fieldBits openbsd_lp64 wg_peer_io ["p_flags"] = 32 := by decide
  have ha : fieldBits openbsd_lp64 wg_aip_io ["a_flags"] = 32 := by decide
  refine ⟨⟨rfl, hi, ?_⟩, ⟨rfl, hp, ?_⟩, ⟨rfl, ha, rfl, ?_⟩⟩
  · intro S
    have h := encodeInterfaceFlags_lt S
    rw [hi]
    unfold storeUnsigned
    omega
  · intro S
    have h := encodePeerFlags_lt S
    rw [hp]
    unfold storeSigned
    omega
  · rw [ha]
    decide

/-- C5: `WG_KEY_LEN` is 32, and `i_public`, `i_private`, `p_public` and
`p_psk` are each declared as an array of `WG_KEY_LEN` elements of type
`uint8_t`, one byte each, so each is 32 bytes long. -/
theorem key_fields :
    WG_KEY_LEN = 32 ∧
    pathType wg_interface_io ["i_public"] = some (.array .uint8_t WG_KEY_LEN) ∧
    pathType wg_interface_io ["i_private"] = some (.array .uint8_t WG_KEY_LEN) ∧
    pathType wg_peer_io ["p_public"] = some (.array .uint8_t WG_KEY_LEN) ∧
    pathType wg_peer_io ["p_psk"] = some (.array .uint8_t WG_KEY_LEN) ∧
    (∀ P : Platform, sizeof P .uint8_t = 1 ∧
      pathSize P wg_interface_io ["i_public"] = some 32 ∧
      pathSize P wg_interface_io ["i_private"] = some 32 ∧
      pathSize P wg_peer_io ["p_public"] = some 32 ∧
      pathSize P wg_peer_io ["p_psk"] = some 32) :=
  ⟨rfl, rfl, rfl, rfl, rfl, fun _ => ⟨rfl, rfl, rfl, rfl, rfl⟩⟩

/-- C6, as the wire-layout table states it, fails at the address-family tag:
on the target platform `sa_family_t` is one byte, so `d_af` is 1 byte wide,
not 2. -/
theorem aip_record_widths_table_counterexample :
    pathType wg_aip_io a_af = some (.sys .sa_family_t) ∧
    pathSize openbsd_lp64 wg_aip_io a_af = some 1 ∧
    ¬ (leafFields openbsd_lp64 "wg_aip_io" wg_aip_io =
      [("a_flags", 4), ("a_next", 8), ("d_af", 2), ("d_cidr", 4),
        ("addr_ipv4", 4), ("addr_ipv6", 16)]) := by
  refine ⟨rfl, by decide, by decide⟩

/-- C6, amended: `struct wg_aip_io` has, in this order, a 4-byte `int` flags
field `a_flags`, a next pointer `a_next`, an address-family tag `d_af` of type
`sa_family_t` whose width is the platform's (1 byte on the target), a 4-byte
signed prefix length `d_cidr`, and a union `d_addr` whose members are a 4-byte
IPv4 and a 16-byte IPv6 address. -/
theorem aip_record_widths :
    leafFields openbsd_lp64 "wg_aip_io" wg_aip_io =
      [("a_flags", 4), ("a_next", 8), ("d_af", 1), ("d_cidr", 4),
        ("addr_ipv4", 4), ("addr_ipv6", 16)] ∧
    pathType wg_aip_io ["a_flags"] = some (.sys .int) ∧
    pathType wg_aip_io ["a_next"] = some (.ptr "struct wg_aip_io") ∧
    pathType wg_aip_io a_af = some (.sys .sa_family_t) ∧
    pathType wg_aip_io a_cidr = some (.sys .int) ∧
    isSignedInt (.sys .int) = true ∧
    pathType wg_aip_io a_addr = some wg_aip_addr ∧
    pathType wg_aip_io a_ipv4 = some (.sys .in_addr) ∧
    pathType wg_aip_io a_ipv6 = some (.sys .in6_addr) ∧
    layout openbsd_lp64 wg_aip_addr = [("addr_ipv4", 0, 4), ("addr_ipv6", 0, 16)] ∧
    (∀ P : Platform, pathSize P wg_aip_io a_af = some (P.size .sa_family_t)) := by
  refine ⟨by decide, rfl, rfl, rfl, rfl, rfl, rfl, rfl, rfl, by decide, fun _ => rfl⟩

/-- C7: on every platform `union wg_peer_endpoint` is at least as large as each
of its members `struct sockaddr`, `struct sockaddr_in` and
`struct sockaddr_in6`, and `p_sa`, `p_sin` and `p_sin6` all start where
`p_endpoint` starts; on the target platform the members have 16, 16 and 28
bytes and the union has exactly the largest size, 28. -/
theorem peer_endpoint_size :
    members wg_peer_endpoint =
      [("sa_sa", .sys .sockaddr), ("sa_sin", .sys .sockaddr_in),
        ("sa_sin6", .sys .sockaddr_in6)] ∧
    (∀ P : Platform, P.size .sockaddr ≤ sizeof P wg_peer_endpoint ∧
      P.size .sockaddr_in ≤ sizeof P wg_peer_endpoint ∧
      P.size .sockaddr_in6 ≤ sizeof P wg_peer_endpoint) ∧
    (∀ P : Platform, pathOffset P wg_peer_io p_sa = pathOffset P wg_peer_io ["p_endpoint"] ∧
      pathOffset P wg_peer_io p_sin = pathOffset P wg_peer_io ["p_endpoint"] ∧
      pathOffset P wg_peer_io p_sin6 = pathOffset P wg_peer_io ["p_endpoint"] ∧
      pathOffset P wg_peer_endpoint ["sa_sa"] = some 0 ∧
      pathOffset P wg_peer_endpoint ["sa_sin"] = some 0 ∧
      pathOffset P wg_peer_endpoint ["sa_sin6"] = some 0) ∧
    sizeof openbsd_lp64 (.sys .sockaddr) = 16 ∧
    sizeof openbsd_lp64 (.sys .sockaddr_in) = 16 ∧
    sizeof openbsd_lp64 (.sys .sockaddr_in6) = 28 ∧
    sizeof openbsd_lp64 wg_peer_endpoint =
      max (sizeof openbsd_lp64 (.sys .sockaddr))
        (max (sizeof openbsd_lp64 (.sys .sockaddr_in))
          (sizeof openbsd_lp64 (.sys .sockaddr_in6))) ∧
    sizeof openbsd_lp64 wg_peer_endpoint = 28 ∧
    pathOffset openbsd_lp64 wg_peer_io p_sa = some 96 ∧
    pathOffset openbsd_lp64 wg_peer_io p_sin = some 96 ∧
    pathOffset openbsd_lp64 wg_peer_io p_sin6 = some 96 := by
  refine ⟨rfl, ?_, ?_, rfl, rfl, rfl, by decide, by decide, by decide, by decide, by decide⟩
  · intro P
    have hle := le_alignUp
      (maxSize P (members wg_peer_endpoint)) (maxAlign P (members wg_peer_endpoint))
      (maxAlign_pos P _)
    have hs : sizeof P wg_peer_endpoint =
        alignUp (maxSize P (members wg_peer_endpoint))
          (maxAlign P (members wg_peer_endpoint)) := by
      simp [wg_peer_endpoint, members, sizeof]
    have hm : maxSize P (members wg_peer_endpoint) =
        max (P.size .sockaddr) (max (P.size .sockaddr_in) (max (P.size .sockaddr_in6) 0)) := by
      simp [wg_peer_endpoint, members, maxSize, sizeof]
    rw [hs, hm]
    rw [hm] at hle
    omega
  · intro P
    simp [pathOffset, memberOffset, memberType, members, layout, wg_peer_io, wg_peer_endpoint,
      p_sa, p_sin, p_sin6, structLayout, List.find?]

/-- C10: under the LP64 layout rules of the target the fields of the three
records are at offsets 0, 8, 16, 20, 24, 56 (`wg_interface_io`, 88 bytes),
0, 8, 16, 24, 28, 60, 92, 96, 128, 136, 144 (`wg_peer_io`, 160 bytes) and
`a_flags` 0, `a_next` 8, `d_af` 16, `d_cidr` 20, `d_addr` 24 (`wg_aip_io`,
40 bytes), no two fields of a record overlap, and a buffer with one interface,
P peers and A allowed IPs in total has exactly 88 + 160*P + 40*A bytes. -/
theorem record_layout :
    layout openbsd_lp64 wg_interface_io =
      [("i_flags", 0, 1), ("i_peers", 8, 8), ("i_port", 16, 2), ("i_rtable", 20, 4),
        ("i_public", 24, 32), ("i_private", 56, 32)] ∧
    sizeof openbsd_lp64 wg_interface_io = 88 ∧
    layout openbsd_lp64 wg_peer_io =
      [("p_flags", 0, 4), ("p_next", 8, 8), ("p_aips", 16, 8),
        ("p_protocol_version", 24, 4), ("p_public", 28, 32), ("p_psk", 60, 32),
        ("p_pka", 92, 2), ("p_endpoint", 96, 28), ("p_txbytes", 128, 8),
        ("p_rxbytes", 136, 8), ("p_last_handshake", 144, 16)] ∧
    sizeof openbsd_lp64 wg_peer_io = 160 ∧
    layout openbsd_lp64 wg_aip_io = [("a_flags", 0, 4), ("a_next", 8, 8), ("a_data", 16, 24)] ∧
    layout openbsd_lp64 wg_aip_data = [("d_af", 0, 1), ("d_cidr", 4, 4), ("d_addr", 8, 16)] ∧
    pathOffset openbsd_lp64 wg_aip_io ["a_flags"] = some 0 ∧
    pathOffset openbsd_lp64 wg_aip_io ["a_next"] = some 8 ∧
    pathOffset openbsd_lp64 wg_aip_io a_af = some 16 ∧
    pathOffset openbsd_lp64 wg_aip_io a_cidr = some 20 ∧
    pathOffset openbsd_lp64 wg_aip_io a_addr = some 24 ∧
    sizeof openbsd_lp64 wg_aip_io = 40 ∧
    disjointFields (sizeof openbsd_lp64 wg_interface_io)
      (layout openbsd_lp64 wg_interface_io) = true ∧
    disjointFields (sizeof openbsd_lp64 wg_peer_io) (layout openbsd_lp64 wg_peer_io) = true ∧
    disjointFields (sizeof openbsd_lp64 wg_aip_io) (layout openbsd_lp64 wg_aip_io) = true ∧
    disjointFields (sizeof openbsd_lp64 wg_aip_data) (layout openbsd_lp64 wg_aip_data) = true ∧
    (∀ aips : List Nat,
      wgd_mem_size openbsd_lp64 aips = 88 + 160 * aips.length + 40 * aips.sum) := by
  have interface_offsets : layout openbsd_lp64 wg_interface_io =
      [("i_flags", 0, 1), ("i_peers", 8, 8), ("i_port", 16, 2), ("i_rtable", 20, 4),
        ("i_public", 24, 32), ("i_private", 56, 32)] := by decide
  have peer_offsets : layout openbsd_lp64 wg_peer_io =
      [("p_flags", 0, 4), ("p_next", 8, 8), ("p_aips", 16, 8),
        ("p_protocol_version", 24, 4), ("p_public", 28, 32), ("p_psk", 60, 32),
        ("p_pka", 92, 2), ("p_endpoint", 96, 28), ("p_txbytes", 128, 8),
        ("p_rxbytes", 136, 8), ("p_last_handshake", 144, 16)] := by decide
  have aip_offsets : layout openbsd_lp64 wg_aip_io =
      [("a_flags", 0, 4), ("a_next", 8, 8), ("a_data", 16, 24)] := by decide
  have data_offsets : layout openbsd_lp64 wg_aip_data =
      [("d_af", 0, 1), ("d_cidr", 4, 4), ("d_addr", 8, 16)] := by decide
  have interface_size : sizeof openbsd_lp64 wg_interface_io = 88 := by decide
  have peer_size : sizeof openbsd_lp64 wg_peer_io = 160 := by decide
  have aip_size : sizeof openbsd_lp64 wg_aip_io = 40 := by decide
  have data_size : sizeof openbsd_lp64 wg_aip_data = 24 := by decide
  refine ⟨interface_offsets, interface_size, peer_offsets, peer_size, aip_offsets,
    data_offsets, ?_, ?_, ?_, ?_, ?_, aip_size, ?_, ?_, ?_, ?_, wgd_mem_size_openbsd⟩
  · decide
  · decide
  · decide
  · decide
  · decide
  · rw [interface_offsets, interface_size]; decide
  · rw [peer_offsets, peer_size]; decide
  · rw [aip_offsets, aip_size]; decide
  · rw [data_offsets, data_size]; decide

/-! ## The check of Allowed-IP records -/

theorem check_aip_ok_iff (P : Platform) (hP : P.AF_INET ≠ P.AF_INET6) (r : AllowedIPRecord) :
    check_aip P r = .ok () ↔ allowed_combination P r := by
  unfold check_aip allowed_combination
  by_cases h4 : r.af = P.AF_INET
  · have h6 : r.af ≠ P.AF_INET6 := fun h => hP (h4.symm.trans h)
    rw [if_pos h4]
    by_cases hc : r.addr.length = 4 ∧ r.cidr ≤ 32
    · rw [if_pos hc]
      exact ⟨fun _ => Or.inl ⟨h4, hc⟩, fun _ => rfl⟩
    · rw [if_neg hc]
      constructor
      · intro h; cases h
      · rintro (⟨_, h⟩ | ⟨h, _⟩)
        · exact absurd h hc
        · exact absurd h h6
  · rw [if_neg h4]
    by_cases h6 : r.af = P.AF_INET6
    · rw [if_pos h6]
      by_cases hc : r.addr.length = 16 ∧ r.cidr ≤ 128
      · rw [if_pos hc]
        exact ⟨fun _ => Or.inr ⟨h6, hc⟩, fun _ => rfl⟩
      · rw [if_neg hc]
        constructor
        · intro h; cases h
        · rintro (⟨h, _⟩ | ⟨_, h⟩)
          · exact absurd h h4
          · exact absurd h hc
    · rw [if_neg h6]
      constructor
      · intro h; cases h
      · rintro (⟨h, _⟩ | ⟨h, _⟩)
        · exact absurd h h4
        · exact absurd h h6

theorem check_aip_error (P : Platform) (r : AllowedIPRecord) (e : Error)
    (h : check_aip P r = .error e) : e = .InvalidArgument := by
  unfold check_aip at h
  split_ifs at h <;> cases h <;> rfl

theorem load_aip_cases (P : Platform) (v : wg_aip_io_value) :
    (∃ r, load_aip P v = .ok r ∧ check_aip P r = .ok ()) ∨
    load_aip P v = .error .InvalidArgument := by
  unfold load_aip
  simp only
  split
  · next u hc => exact Or.inl ⟨_, rfl, hc⟩
  · next e hc => rw [check_aip_error P _ e hc]; exact Or.inr rfl

/-- C8: an Allowed-IP record passes the check exactly when its family tag is
INET with a payload of exactly 4 bytes and a prefix length of at most 32, or
INET6 with exactly 16 bytes and at most 128; so an accepted INET record has 4
bytes and prefix length at most 32, an accepted INET6 record 16 bytes and at
most 128, and every other combination is rejected with InvalidArgument; the
same holds of every record read from a `struct wg_aip_io`, whose address
union has a member of the size of `struct in_addr` and one of the size of
`struct in6_addr`. -/
theorem aip_check (P : Platform) (hP : P.AF_INET ≠ P.AF_INET6) (r : AllowedIPRecord) :
    (check_aip P r = .ok () →
      (r.af = P.AF_INET → r.addr.length = 4 ∧ r.cidr ≤ 32) ∧
      (r.af = P.AF_INET6 → r.addr.length = 16 ∧ r.cidr ≤ 128)) ∧
    (allowed_combination P r → check_aip P r = .ok ()) ∧
    (¬ allowed_combination P r → check_aip P r = .error .InvalidArgument) ∧
    (∀ v : wg_aip_io_value,
      (∃ a, load_aip P v = .ok a ∧ allowed_combination P a) ∨
      load_aip P v = .error .InvalidArgument) ∧
    pathSize P wg_aip_io a_ipv4 = some (P.size .in_addr) ∧
    pathSize P wg_aip_io a_ipv6 = some (P.size .in6_addr) := by
  refine ⟨?_, (check_aip_ok_iff P hP r).2, ?_, ?_, rfl, rfl⟩
  · intro h
    rcases (check_aip_ok_iff P hP r).1 h with ⟨h4, hc⟩ | ⟨h6, hc⟩
    · exact ⟨fun _ => hc, fun h => absurd (h4.symm.trans h) hP⟩
    · exact ⟨fun h => absurd (h.symm.trans h6) hP, fun _ => hc⟩
  · intro hn
    cases hres : check_aip P r with
    | ok u => exact absurd ((check_aip_ok_iff P hP r).1 hres) hn
    | error e => rw [check_aip_error P r e hres]
  · intro v
    rcases load_aip_cases P v with ⟨a, ha, hc⟩ | h
    · exact Or.inl ⟨a, ha, (check_aip_ok_iff P hP a).1 hc⟩
    · exact Or.inr h

/-- C8 at the target platform, where the members of the address union have 4
and 16 bytes: an IPv4 /24 prefix is accepted, and the same record under a tag
that is neither INET nor INET6 is rejected with InvalidArgument. -/
theorem aip_check_witness :
    openbsd_lp64.AF_INET ≠ openbsd_lp64.AF_INET6 ∧
    pathSize openbsd_lp64 wg_aip_io a_ipv4 = some 4 ∧
    pathSize openbsd_lp64 wg_aip_io a_ipv6 = some 16 ∧
    check_aip openbsd_lp64 ⟨0, 2, 24, [192, 168, 1, 0]⟩ = .ok () ∧
    check_aip openbsd_lp64 ⟨0, 7, 24, [192, 168, 1, 0]⟩ = .error .InvalidArgument ∧
    load_aip openbsd_lp64 ⟨0, 0, 7, 24, storeBytes 16 [192, 168, 1, 0]⟩ =
      .error .InvalidArgument :=
  ⟨by decide, by decide, by decide,
    (aip_check openbsd_lp64 (by decide) ⟨0, 2, 24, [192, 168, 1, 0]⟩).2.1
      (Or.inl ⟨rfl, rfl, by decide⟩),
    (aip_check openbsd_lp64 (by decide) ⟨0, 7, 24, [192, 168, 1, 0]⟩).2.2.1 (by
      unfold allowed_combination
      decide),
    rfl⟩


/-! ## Stored values are read back -/

theorem storeUnsigned_of_range (bits : Nat) (x : Int) (h0 : 0 ≤ x) (h1 : x < 2 ^ bits) :
    storeUnsigned bits x = x := by
  unfold storeUnsigned
  exact Int.emod_eq_of_lt h0 h1

theorem storeSigned_of_range (bits : Nat) (x : Int) (hb : 0 < bits)
    (h0 : -(2 ^ (bits - 1)) ≤ x) (h1 : x < 2 ^ (bits - 1)) :
    storeSigned bits x = x := by
  unfold storeSigned
  have hpow : (2 : Int) ^ bits = 2 * 2 ^ (bits - 1) := by
    obtain ⟨k, rfl⟩ : ∃ k, bits = k + 1 := ⟨bits - 1, by omega⟩
    simp [pow_succ, Int.mul_comm]
  have hmod : (x + 2 ^ (bits - 1)) % 2 ^ bits = x + 2 ^ (bits - 1) := by
    apply Int.emod_eq_of_lt
    · omega
    · rw [hpow]; omega
  rw [hmod]
  omega

theorem storeField_of_fits (P : Platform) (t : CType) (path : List String) (x : Int)
    (h : fitsField P t path x = true) : storeField P t path x = x := by
  unfold fitsField at h
  unfold storeField
  cases hty : pathType t path with
  | none => rfl
  | some u =>
    rw [hty] at h
    simp only at h ⊢
    by_cases hs : isSignedInt u = true
    · rw [if_pos hs] at h ⊢
      have h' := of_decide_eq_true h
      exact storeSigned_of_range _ x (by omega) h'.2.1 h'.2.2
    · rw [if_neg hs] at h ⊢
      have h' := of_decide_eq_true h
      exact storeUnsigned_of_range _ x h'.1 h'.2

theorem storeBytes_take (xs : List Int) :
    ∀ n, fitsBytes xs = true → xs.length ≤ n → (storeBytes n xs).take xs.length = xs := by
  induction xs with
  | nil => intro n _ _; simp
  | cons x rest ih =>
    intro n hfit hlen
    obtain ⟨k, rfl⟩ : ∃ k, n = k + 1 := ⟨n - 1, by simp at hlen; omega⟩
    simp only [fitsBytes, List.all_cons, Bool.and_eq_true, decide_eq_true_eq] at hfit
    simp only [storeBytes, List.length_cons, List.take_succ_cons]
    rw [storeUnsigned_of_range 8 x hfit.1.1 (by simpa using hfit.1.2)]
    rw [ih k hfit.2 (by simp at hlen; omega)]

theorem length_storeBytes (n : Nat) : ∀ xs, (storeBytes n xs).length = n := by
  induction n with
  | zero => intro xs; rfl
  | succ k ih =>
    intro xs
    cases xs with
    | nil => simp [storeBytes, ih]
    | cons x rest => simp [storeBytes, ih]

theorem storeBytes_of_fits (n : Nat) (xs : List Int) (hfit : fitsBytes xs = true)
    (hlen : xs.length = n) : storeBytes n xs = xs := by
  have h := storeBytes_take xs n hfit (by omega)
  rw [hlen] at h
  rwa [List.take_of_length_le (by rw [length_storeBytes])] at h

theorem getD_storeBytes_nil (n : Nat) : ∀ i, (storeBytes n []).getD i 0 = 0 := by
  induction n with
  | zero => intro i; rfl
  | succ k ih =>
    intro i
    cases i with
    | zero => rfl
    | succ j => simpa [storeBytes] using ih j

theorem getD_storeBytes (xs : List Int) :
    ∀ n i, fitsBytes xs = true → xs.length ≤ n →
      (storeBytes n xs).getD i 0 = xs.getD i 0 := by
  induction xs with
  | nil => intro n i _ _; rw [getD_storeBytes_nil]; rfl
  | cons x rest ih =>
    intro n i hfit hlen
    obtain ⟨k, rfl⟩ : ∃ k, n = k + 1 := ⟨n - 1, by simp at hlen; omega⟩
    simp only [fitsBytes, List.all_cons, Bool.and_eq_true, decide_eq_true_eq] at hfit
    cases i with
    | zero =>
      simp only [storeBytes, List.getD_cons_zero]
      exact storeUnsigned_of_range 8 x hfit.1.1 (by simpa using hfit.1.2)
    | succ j =>
      simp only [storeBytes, List.getD_cons_succ]
      exact ih k j hfit.2 (by simp at hlen; omega)

theorem sa_family_storeBytes (P : Platform) (n : Nat) (xs : List Int)
    (hfit : fitsBytes xs = true) (hlen : xs.length ≤ n) :
    sa_family P (storeBytes n xs) = sa_family P xs := by
  unfold sa_family
  have h : (fun k => (storeBytes n xs).getD (P.sa_family_offset + k) 0) =
      (fun k => xs.getD (P.sa_family_offset + k) 0) :=
    funext (fun k => getD_storeBytes xs n _ hfit hlen)
  rw [h]

theorem decodeLE_zeros (bytes : List Int) (h : ∀ b ∈ bytes, b = 0) : decodeLE bytes = 0 := by
  induction bytes with
  | nil => rfl
  | cons b rest ih =>
    have hb : b = 0 := h b (List.mem_cons_self _ _)
    have hrest := ih (fun c hc => h c (List.mem_cons_of_mem _ hc))
    simp [decodeLE, hb, hrest]

theorem sa_family_nil (P : Platform) : sa_family P [] = 0 := by
  unfold sa_family readUnsigned
  split_ifs
  · apply decodeLE_zeros
    intro b hb
    rw [List.mem_reverse, List.mem_map] at hb
    obtain ⟨k, _, rfl⟩ := hb
    rfl
  · apply decodeLE_zeros
    intro b hb
    rw [List.mem_map] at hb
    obtain ⟨k, _, rfl⟩ := hb
    rfl

theorem size_le_wg_peer_endpoint (P : Platform) :
    P.size .sockaddr_in ≤ fieldSize P wg_peer_io ["p_endpoint"] ∧
    P.size .sockaddr_in6 ≤ fieldSize P wg_peer_io ["p_endpoint"] := by
  have hfield : fieldSize P wg_peer_io ["p_endpoint"] =
      alignUp (maxSize P (members wg_peer_endpoint))
        (maxAlign P (members wg_peer_endpoint)) := rfl
  have hle := le_alignUp
    (maxSize P (members wg_peer_endpoint)) (maxAlign P (members wg_peer_endpoint))
    (maxAlign_pos P _)
  have hmax : maxSize P (members wg_peer_endpoint) =
      max (P.size .sockaddr) (max (P.size .sockaddr_in) (max (P.size .sockaddr_in6) 0)) := by
    simp [wg_peer_endpoint, members, maxSize, sizeof]
  rw [hfield]
  rw [hmax] at hle ⊢
  omega

theorem load_endpoint_store_endpoint (P : Platform) (e : Endpoint)
    (hfamily : P.AF_INET ≠ 0 ∧ P.AF_INET6 ≠ 0 ∧ P.AF_INET ≠ P.AF_INET6)
    (h : valid_endpoint P e = true) : load_endpoint P (store_endpoint P e) = e := by
  have hsin : fieldSize P wg_peer_io p_sin = P.size .sockaddr_in := rfl
  have hsin6 : fieldSize P wg_peer_io p_sin6 = P.size .sockaddr_in6 := rfl
  cases e with
  | unspecified =>
    have hfam : sa_family P (storeBytes (fieldSize P wg_peer_io ["p_endpoint"]) []) = 0 := by
      rw [sa_family_storeBytes P _ [] rfl (Nat.zero_le _), sa_family_nil]
    simp only [store_endpoint, load_endpoint, hfam]
    rw [if_neg (fun h0 => hfamily.1 h0.symm), if_neg (fun h0 => hfamily.2.1 h0.symm)]
  | ipv4 sin =>
    simp only [valid_endpoint, Bool.and_eq_true, decide_eq_true_eq] at h
    obtain ⟨⟨hfit, hlen⟩, htag⟩ := h
    have hle : sin.length ≤ fieldSize P wg_peer_io ["p_endpoint"] := by
      rw [hlen, hsin]; exact (size_le_wg_peer_endpoint P).1
    have hfam := sa_family_storeBytes P _ sin hfit hle
    simp only [store_endpoint, load_endpoint]
    rw [hfam, if_pos htag, ← hlen, storeBytes_take sin _ hfit hle]
  | ipv6 sin6 =>
    simp only [valid_endpoint, Bool.and_eq_true, decide_eq_true_eq] at h
    obtain ⟨⟨hfit, hlen⟩, htag⟩ := h
    have hle : sin6.length ≤ fieldSize P wg_peer_io ["p_endpoint"] := by
      rw [hlen, hsin6]; exact (size_le_wg_peer_endpoint P).2
    have hfam := sa_family_storeBytes P _ sin6 hfit hle
    have hne : sa_family P sin6 ≠ P.AF_INET := fun h0 => hfamily.2.2 (h0.symm.trans htag)
    simp only [store_endpoint, load_endpoint]
    rw [hfam, if_neg hne, if_pos htag, ← hlen, storeBytes_take sin6 _ hfit hle]

theorem storeSigned_of_fits (size : Nat) (x : Int) (h : fitsSigned size x = true) :
    storeSigned (8 * size) x = x := by
  have h' := of_decide_eq_true h
  exact storeSigned_of_range _ x (by omega) h'.2.1 h'.2.2

theorem load_aip_store_aip (P : Platform) (a : AllowedIPRecord) (next : Nat)
    (h : valid_aip P a = true) : load_aip P (store_aip P a next) = .ok a := by
  simp only [valid_aip, Bool.and_eq_true, decide_eq_true_eq] at h
  obtain ⟨⟨⟨⟨⟨hflags, haf⟩, hcidr⟩, hbytes⟩, hlen⟩, hcheck⟩ := h
  have hok : check_aip P a = .ok () := by
    cases hc : check_aip P a with
    | ok u => rfl
    | error e => rw [hc] at hcheck; cases hcheck
  have hn : (if a.af = P.AF_INET then 4 else if a.af = P.AF_INET6 then 16 else 0) =
      a.addr.length := by
    unfold check_aip at hok
    split_ifs at hok with h4 hc4 h6 hc6
    · rw [if_pos h4]; exact hc4.1.symm
    · rw [if_neg h4, if_pos h6]; exact hc6.1.symm
  have hrec : ({ flags := a.flags, af := a.af, cidr := a.cidr, addr := a.addr } :
      AllowedIPRecord) = a := rfl
  simp only [load_aip, store_aip, storeField_of_fits P _ _ _ hflags,
    storeField_of_fits P _ _ _ haf, storeField_of_fits P _ _ _ hcidr, hn,
    storeBytes_take a.addr _ hbytes hlen, hrec, hok]

theorem load_peer_store_peer (P : Platform) (p : PeerRecord) (next aips : Nat)
    (hfamily : P.AF_INET ≠ 0 ∧ P.AF_INET6 ≠ 0 ∧ P.AF_INET ≠ P.AF_INET6)
    (h : valid_peer P p = true) : load_peer P (store_peer P p next aips) p.aips = p := by
  simp only [valid_peer, Bool.and_eq_true, decide_eq_true_eq] at h
  obtain ⟨⟨⟨⟨⟨⟨⟨⟨⟨⟨⟨⟨hflags, hver⟩, hpub⟩, hpublen⟩, hpsk⟩, hpsklen⟩, hpka⟩, hend⟩, htx⟩,
    hrx⟩, hsec⟩, hnsec⟩, _⟩ := h
  simp only [load_peer, store_peer]
  rw [storeField_of_fits P _ _ _ hflags, storeField_of_fits P _ _ _ hver,
    storeField_of_fits P _ _ _ hpka, storeField_of_fits P _ _ _ htx,
    storeField_of_fits P _ _ _ hrx, storeBytes_of_fits _ _ hpub hpublen,
    storeBytes_of_fits _ _ hpsk hpsklen, load_endpoint_store_endpoint P _ hfamily hend,
    storeSigned_of_fits _ _ hsec, storeSigned_of_fits _ _ hnsec]

theorem load_interface_store_interface (P : Platform) (t : InterfaceRecord) (peers : Nat)
    (h : valid_interface P t = true) :
    load_interface (store_interface P t peers) t.peers = t := by
  simp only [valid_interface, Bool.and_eq_true, decide_eq_true_eq] at h
  obtain ⟨⟨⟨⟨⟨⟨⟨hflags, hport⟩, hrtable⟩, hpub⟩, hpublen⟩, hpriv⟩, hprivlen⟩, _⟩ := h
  simp only [load_interface, store_interface]
  rw [storeField_of_fits P _ _ _ hflags, storeField_of_fits P _ _ _ hport,
    storeField_of_fits P _ _ _ hrtable, storeBytes_of_fits _ _ hpub hpublen,
    storeBytes_of_fits _ _ hpriv hprivlen]

/-! ## The buffer -/

theorem bufferSize_append (P : Platform) (xs ys : List Cell) :
    bufferSize P (xs ++ ys) = bufferSize P xs + bufferSize P ys := by
  simp [bufferSize]

theorem readAt_append (P : Platform) (c : Cell) (post : List Cell) :
    ∀ (pre : List Cell) (cur : Nat), (∀ d ∈ pre, 0 < d.size P) →
      readAt P cur (pre ++ c :: post) (cur + bufferSize P pre) = some c := by
  intro pre
  induction pre with
  | nil => intro cur _; simp [readAt, bufferSize]
  | cons d rest ih =>
    intro cur hpos
    have hd : 0 < d.size P := hpos d (List.mem_cons_self _ _)
    have hsize : bufferSize P (d :: rest) = d.size P + bufferSize P rest := by
      simp [bufferSize]
    have hne : cur + bufferSize P (d :: rest) ≠ cur := by omega
    have hrest := ih (cur + d.size P) (fun e he => hpos e (List.mem_cons_of_mem _ he))
    simp only [List.cons_append, readAt, if_neg hne]
    rw [hsize, ← Nat.add_assoc]
    exact hrest

theorem length_serialize_aips (P : Platform) (aips : List AllowedIPRecord) :
    ∀ addr, (serialize_aips P addr aips).length = aips.length := by
  induction aips with
  | nil => intro addr; rfl
  | cons a rest ih => intro addr; simp [serialize_aips, ih]

theorem size_of_mem_serialize_aips (P : Platform) (aips : List AllowedIPRecord) :
    ∀ addr, ∀ d ∈ serialize_aips P addr aips, d.size P = sizeof P wg_aip_io := by
  induction aips with
  | nil => intro addr d hd; simp [serialize_aips] at hd
  | cons a rest ih =>
    intro addr d hd
    simp only [serialize_aips, List.mem_cons] at hd
    rcases hd with rfl | hd
    · rfl
    · exact ih _ d hd

theorem bufferSize_serialize_aips (P : Platform) (aips : List AllowedIPRecord) :
    ∀ addr, bufferSize P (serialize_aips P addr aips) = aips.length * sizeof P wg_aip_io := by
  induction aips with
  | nil => intro addr; simp [serialize_aips, bufferSize]
  | cons a rest ih =>
    intro addr
    have h := ih (addr + sizeof P wg_aip_io)
    simp only [bufferSize] at h
    simp only [serialize_aips, bufferSize, List.map_cons, List.sum_cons, h, Cell.size,
      List.length_cons, Nat.add_mul, Nat.one_mul]
    omega

theorem length_le_serialize_peers (P : Platform) (peers : List PeerRecord) :
    ∀ addr, peers.length ≤ (serialize_peers P addr peers).length := by
  induction peers with
  | nil => intro addr; simp
  | cons p rest ih =>
    intro addr
    have h := ih (addr + sizeof P wg_peer_io + p.aips.length * sizeof P wg_aip_io)
    simp only [serialize_peers, List.length_cons, List.length_append]
    omega

theorem kinds_serialize_aips (P : Platform) (aips : List AllowedIPRecord) :
    ∀ addr, (serialize_aips P addr aips).map Cell.kind = List.replicate aips.length .aip := by
  induction aips with
  | nil => intro addr; rfl
  | cons a rest ih => intro addr; simp [serialize_aips, ih, Cell.kind, List.replicate_succ]

theorem kinds_serialize_peers (P : Platform) (peers : List PeerRecord) :
    ∀ addr, (serialize_peers P addr peers).map Cell.kind =
      (peers.map (fun p => p.aips.length)).foldr
        (fun n acc => .peer :: (List.replicate n .aip ++ acc)) [] := by
  induction peers with
  | nil => intro addr; rfl
  | cons p rest ih =>
    intro addr
    simp [serialize_peers, ih, kinds_serialize_aips, Cell.kind]

theorem bufferSize_serialize_peers (P : Platform) (peers : List PeerRecord) :
    ∀ addr, bufferSize P (serialize_peers P addr peers) =
      ((peers.map (fun p => p.aips.length)).map
        (fun a => sizeof P wg_peer_io + a * sizeof P wg_aip_io)).sum := by
  induction peers with
  | nil => intro addr; rfl
  | cons p rest ih =>
    intro addr
    have h := ih (addr + sizeof P wg_peer_io + p.aips.length * sizeof P wg_aip_io)
    have ha := bufferSize_serialize_aips P p.aips (addr + sizeof P wg_peer_io)
    have hcons : ∀ (c : Cell) (xs : List Cell),
        bufferSize P (c :: xs) = c.size P + bufferSize P xs := by
      intro c xs; simp [bufferSize]
    simp only [serialize_peers, hcons, bufferSize_append, h, ha, Cell.size, List.map_cons,
      List.sum_cons]
    omega

/-! ## Reading the lists back -/

theorem parse_aips_null (P : Platform) (base : Nat) (buf : List Cell) (fuel : Nat) :
    parse_aips P base buf fuel 0 = .ok [] := by
  cases fuel <;> simp [parse_aips]

theorem parse_peers_null (P : Platform) (base : Nat) (buf : List Cell) (fuel : Nat) :
    parse_peers P base buf fuel 0 = .ok [] := by
  cases fuel <;> simp [parse_peers]

theorem storePointer_of_le (P : Platform) (base addr : Nat) (buf : List Cell)
    (hspace : base + bufferSize P buf < 2 ^ (8 * sizeof P (.ptr "void")))
    (h : addr ≤ base + bufferSize P buf) : storePointer P addr = addr :=
  Nat.mod_eq_of_lt (Nat.lt_of_le_of_lt h hspace)

theorem bufferSize_cons (P : Platform) (c : Cell) (xs : List Cell) :
    bufferSize P (c :: xs) = c.size P + bufferSize P xs := by
  simp [bufferSize]

theorem parse_aips_serialize_aips (P : Platform) (base : Nat) (buf post : List Cell)
    (hspace : base + bufferSize P buf < 2 ^ (8 * sizeof P (.ptr "void")))
    (hsize : 0 < sizeof P wg_aip_io) (aips : List AllowedIPRecord) :
    ∀ (pre : List Cell) (addr fuel : Nat),
      buf = pre ++ serialize_aips P addr aips ++ post →
      (∀ d ∈ pre, 0 < d.size P) → 0 < addr → addr = base + bufferSize P pre →
      aips.length ≤ fuel → (∀ a ∈ aips, valid_aip P a = true) →
      parse_aips P base buf fuel (if aips = [] then 0 else addr) = .ok aips := by
  induction aips with
  | nil =>
    intro pre addr fuel _ _ _ _ _ _
    simp [parse_aips_null]
  | cons a rest ih =>
    intro pre addr fuel hbuf hpre haddr hbase hfuel hvalid
    obtain ⟨f, rfl⟩ : ∃ f, fuel = f + 1 := ⟨fuel - 1, by simp at hfuel; omega⟩
    have hne : addr ≠ 0 := by omega
    have hcell : buf = pre ++
        Cell.aip (store_aip P a (if rest = [] then 0 else addr + sizeof P wg_aip_io)) ::
          (serialize_aips P (addr + sizeof P wg_aip_io) rest ++ post) := by
      rw [hbuf]; simp [serialize_aips]
    have hread : readAt P base buf addr =
        some (Cell.aip (store_aip P a (if rest = [] then 0 else addr + sizeof P wg_aip_io))) := by
      rw [hcell, hbase]
      exact readAt_append P _ _ pre base hpre
    have hload := load_aip_store_aip P a (if rest = [] then 0 else addr + sizeof P wg_aip_io)
      (hvalid a (List.mem_cons_self _ _))
    have hrest := ih
      (pre ++ [Cell.aip (store_aip P a (if rest = [] then 0 else addr + sizeof P wg_aip_io))])
      (addr + sizeof P wg_aip_io) f
      (by rw [hcell]; simp)
      (by
        intro d hd
        rcases List.mem_append.1 hd with hd | hd
        · exact hpre d hd
        · rw [List.mem_singleton.1 hd]; exact hsize)
      (by omega)
      (by rw [bufferSize_append, hbase]; simp [bufferSize, Cell.size]; omega)
      (by simp at hfuel; omega)
      (fun b hb => hvalid b (List.mem_cons_of_mem _ hb))
    have hnext : (store_aip P a (if rest = [] then 0 else addr + sizeof P wg_aip_io)).a_next =
        (if rest = [] then 0 else addr + sizeof P wg_aip_io) := by
      apply storePointer_of_le P base _ buf hspace
      have hlen : bufferSize P buf = bufferSize P pre + (sizeof P wg_aip_io +
          (bufferSize P (serialize_aips P (addr + sizeof P wg_aip_io) rest) +
            bufferSize P post)) := by
        rw [hcell, bufferSize_append, bufferSize_cons, bufferSize_append]; rfl
      split_ifs <;> omega
    simp only [reduceCtorEq, if_false, parse_aips, if_neg hne, hread, hload, hnext, hrest]

theorem parse_peers_serialize_peers (P : Platform) (base : Nat) (buf post : List Cell)
    (hspace : base + bufferSize P buf < 2 ^ (8 * sizeof P (.ptr "void")))
    (hfamily : P.AF_INET ≠ 0 ∧ P.AF_INET6 ≠ 0 ∧ P.AF_INET ≠ P.AF_INET6)
    (hpeer : 0 < sizeof P wg_peer_io) (haip : 0 < sizeof P wg_aip_io)
    (peers : List PeerRecord) :
    ∀ (pre : List Cell) (addr fuel : Nat),
      buf = pre ++ serialize_peers P addr peers ++ post →
      (∀ d ∈ pre, 0 < d.size P) → 0 < addr → addr = base + bufferSize P pre →
      peers.length ≤ fuel → (∀ p ∈ peers, valid_peer P p = true) →
      parse_peers P base buf fuel (if peers = [] then 0 else addr) = .ok peers := by
  induction peers with
  | nil =>
    intro pre addr fuel _ _ _ _ _ _
    simp [parse_peers_null]
  | cons p rest ih =>
    intro pre addr fuel hbuf hpre haddr hbase hfuel hvalid
    obtain ⟨f, rfl⟩ : ∃ f, fuel = f + 1 := ⟨fuel - 1, by simp at hfuel; omega⟩
    have hne : addr ≠ 0 := by omega
    have hp : valid_peer P p = true := hvalid p (List.mem_cons_self _ _)
    have hpaips : ∀ a ∈ p.aips, valid_aip P a = true := by
      simp only [valid_peer, Bool.and_eq_true, List.all_eq_true] at hp
      exact hp.2
    generalize hnext : (if rest = [] then 0
      else addr + sizeof P wg_peer_io + p.aips.length * sizeof P wg_aip_io) = next at *
    generalize hfirst : (if p.aips = [] then 0 else addr + sizeof P wg_peer_io) = first at *
    have hcell : buf = pre ++ Cell.peer (store_peer P p next first) ::
        (serialize_aips P (addr + sizeof P wg_peer_io) p.aips ++
          (serialize_peers P
            (addr + sizeof P wg_peer_io + p.aips.length * sizeof P wg_aip_io) rest ++ post)) := by
      rw [hbuf]; simp [serialize_peers, hnext, hfirst]
    have hread : readAt P base buf addr = some (Cell.peer (store_peer P p next first)) := by
      rw [hcell, hbase]
      exact readAt_append P _ _ pre base hpre
    have hpre1 : ∀ d ∈ pre ++ [Cell.peer (store_peer P p next first)], 0 < d.size P := by
      intro d hd
      rcases List.mem_append.1 hd with hd | hd
      · exact hpre d hd
      · rw [List.mem_singleton.1 hd]; exact hpeer
    have hsize1 : bufferSize P (pre ++ [Cell.peer (store_peer P p next first)]) =
        bufferSize P pre + sizeof P wg_peer_io := by
      rw [bufferSize_append]; simp [bufferSize, Cell.size]
    have haips := parse_aips_serialize_aips P base buf
      (serialize_peers P
        (addr + sizeof P wg_peer_io + p.aips.length * sizeof P wg_aip_io) rest ++ post)
      hspace haip p.aips
      (pre ++ [Cell.peer (store_peer P p next first)])
      (addr + sizeof P wg_peer_io) buf.length
      (by rw [hcell]; simp)
      hpre1 (by omega) (by rw [hsize1, hbase]; omega)
      (by
        rw [hcell]
        simp only [List.length_append, List.length_cons, length_serialize_aips]
        omega)
      hpaips
    rw [hfirst] at haips
    have hrest := ih
      (pre ++ [Cell.peer (store_peer P p next first)] ++
        serialize_aips P (addr + sizeof P wg_peer_io) p.aips)
      (addr + sizeof P wg_peer_io + p.aips.length * sizeof P wg_aip_io) f
      (by rw [hcell]; simp)
      (by
        intro d hd
        rcases List.mem_append.1 hd with hd | hd
        · exact hpre1 d hd
        · rw [size_of_mem_serialize_aips P _ _ d hd]; exact haip)
      (by omega)
      (by rw [bufferSize_append, hsize1, bufferSize_serialize_aips, hbase]; omega)
      (by simp at hfuel; omega)
      (fun q hq => hvalid q (List.mem_cons_of_mem _ hq))
    rw [hnext] at hrest
    have hlen : bufferSize P buf = bufferSize P pre + (sizeof P wg_peer_io +
        (p.aips.length * sizeof P wg_aip_io +
          (bufferSize P (serialize_peers P
            (addr + sizeof P wg_peer_io + p.aips.length * sizeof P wg_aip_io) rest) +
            bufferSize P post))) := by
      rw [hcell, bufferSize_append, bufferSize_cons, bufferSize_append, bufferSize_append,
        bufferSize_serialize_aips]
      rfl
    have hfields : (store_peer P p next first).p_next = next ∧
        (store_peer P p next first).p_aips = first := by
      constructor
      · apply storePointer_of_le P base _ buf hspace
        rw [← hnext]
        split_ifs <;> omega
      · apply storePointer_of_le P base _ buf hspace
        rw [← hfirst]
        split_ifs <;> omega
    simp only [reduceCtorEq, if_false, parse_peers, if_neg hne, hread, hfields.1, hfields.2,
      haips, hrest, load_peer_store_peer P p next first hfamily hp]

theorem deserialize_serialize (P : Platform) (base : Nat) (t : InterfaceRecord)
    (hspace : base + bufferSize P (serialize P base t) < 2 ^ (8 * sizeof P (.ptr "void")))
    (hfamily : P.AF_INET ≠ 0 ∧ P.AF_INET6 ≠ 0 ∧ P.AF_INET ≠ P.AF_INET6)
    (hinterface : 0 < sizeof P wg_interface_io) (hpeer : 0 < sizeof P wg_peer_io)
    (haip : 0 < sizeof P wg_aip_io) (hvalid : valid_interface P t = true) :
    deserialize P base (serialize P base t) = .ok t := by
  have hpeers : ∀ p ∈ t.peers, valid_peer P p = true := by
    simp only [valid_interface, Bool.and_eq_true, List.all_eq_true] at hvalid
    exact hvalid.2
  generalize hfirst : (if t.peers = [] then 0 else base + sizeof P wg_interface_io) = first
  have hbuf : serialize P base t = [Cell.interface (store_interface P t first)] ++
      serialize_peers P (base + sizeof P wg_interface_io) t.peers ++ [] := by
    simp [serialize, hfirst]
  have hread : readAt P base (serialize P base t) base =
      some (Cell.interface (store_interface P t first)) := by
    simp [serialize, readAt, hfirst]
  have hparse := parse_peers_serialize_peers P base (serialize P base t) [] hspace hfamily
    hpeer haip t.peers
    [Cell.interface (store_interface P t first)] (base + sizeof P wg_interface_io)
    (serialize P base t).length hbuf
    (by intro d hd; rw [List.mem_singleton.1 hd]; exact hinterface)
    (by omega) (by simp [bufferSize, Cell.size])
    (by
      have := length_le_serialize_peers P t.peers (base + sizeof P wg_interface_io)
      simp only [serialize, List.length_cons]
      omega)
    hpeers
  rw [hfirst] at hparse
  have hfield : (store_interface P t first).i_peers = first := by
    apply storePointer_of_le P base _ (serialize P base t) hspace
    have hlen : bufferSize P (serialize P base t) = sizeof P wg_interface_io +
        bufferSize P (serialize_peers P (base + sizeof P wg_interface_io) t.peers) := by
      simp [serialize, bufferSize, Cell.size]
    rw [← hfirst]
    split_ifs <;> omega
  simp only [deserialize, hread, hfield, hparse, load_interface_store_interface P t first hvalid]

/-! ## Round trip -/

/-- C9: for every Interface record tree built from valid field combinations
(every value within the range of its C field, every endpoint carrying the
family tag of its kind), written at an address where it fits the address
space, on a platform whose INET and INET6 tags differ from each other and
from 0, the buffer written in the documented order (one `wg_interface_io`,
then for each peer in list order its `wg_peer_io` followed by its `wg_aip_io`
records in list order) has the documented size, and reading it back yields
the same tree: same flags, same field values, same order of peers and
allowed IPs. -/
theorem serialize_roundtrip (P : Platform) (base : Nat) (t : InterfaceRecord)
    (hinterface : 0 < sizeof P wg_interface_io) (hpeer : 0 < sizeof P wg_peer_io)
    (haip : 0 < sizeof P wg_aip_io)
    (hfamily : P.AF_INET ≠ 0 ∧ P.AF_INET6 ≠ 0 ∧ P.AF_INET ≠ P.AF_INET6)
    (hspace : base + wgd_mem_size P (t.peers.map (fun p => p.aips.length)) <
      2 ^ (8 * sizeof P (.ptr "void")))
    (hvalid : valid_interface P t = true) :
    (serialize P base t).map Cell.kind =
      documentedOrder (t.peers.map (fun p => p.aips.length)) ∧
    bufferSize P (serialize P base t) = wgd_mem_size P (t.peers.map (fun p => p.aips.length)) ∧
    deserialize P base (serialize P base t) = .ok t := by
  have hsize : bufferSize P (serialize P base t) =
      wgd_mem_size P (t.peers.map (fun p => p.aips.length)) := by
    have h := bufferSize_serialize_peers P t.peers (base + sizeof P wg_interface_io)
    have hcons : bufferSize P (serialize P base t) = sizeof P wg_interface_io +
        bufferSize P (serialize_peers P (base + sizeof P wg_interface_io) t.peers) := by
      simp [serialize, bufferSize, Cell.size]
    rw [hcons, h, wgd_mem_size]
  refine ⟨?_, hsize, deserialize_serialize P base t (by rw [hsize]; exact hspace) hfamily
    hinterface hpeer haip hvalid⟩
  simp [serialize, documentedOrder, kinds_serialize_peers, Cell.kind]

/-- C9 on the target platform: the example tree, with two peers and two
allowed IPs, is valid, fills 488 bytes at address 4096 and is read back
unchanged. A port outside the range of `in_port_t`, a timestamp outside the
range of `time_t`, and an IPv4 endpoint whose bytes carry no INET tag are not
valid: the fields hold the port and the seconds truncated, and the zeroed
socket address is read back as no endpoint. -/
theorem serialize_roundtrip_witness :
    valid_interface openbsd_lp64 exampleTree = true ∧
    bufferSize openbsd_lp64 (serialize openbsd_lp64 4096 exampleTree) = 488 ∧
    deserialize openbsd_lp64 4096 (serialize openbsd_lp64 4096 exampleTree) =
      .ok exampleTree ∧
    valid_interface openbsd_lp64 { exampleTree with port := 70000 } = false ∧
    (store_interface openbsd_lp64 { exampleTree with port := 70000 } 0).i_port = 4464 ∧
    exampleTree.peers.map
        (fun p => valid_peer openbsd_lp64 { p with last_handshake := (2 ^ 63, 5) }) =
      [false, false] ∧
    exampleTree.peers.map
        (fun p => (store_peer openbsd_lp64
          { p with last_handshake := (2 ^ 63, 2 ^ 64 + 5) } 0 0).p_last_handshake) =
      [(-(2 ^ 63), 5), (-(2 ^ 63), 5)] ∧
    valid_endpoint openbsd_lp64 (.ipv4 (List.replicate 16 0)) = false ∧
    store_endpoint openbsd_lp64 (.ipv4 (List.replicate 16 0)) =
      store_endpoint openbsd_lp64 .unspecified ∧
    load_endpoint openbsd_lp64 (store_endpoint openbsd_lp64 (.ipv4 (List.replicate 16 0))) =
      .unspecified ∧
    sizeof openbsd_lp64 (.sys .time_t) + sizeof openbsd_lp64 (.sys .long) =
      sizeof openbsd_lp64 (.sys .timespec) :=
  ⟨by decide, by decide,
    (serialize_roundtrip openbsd_lp64 4096 exampleTree (by decide) (by decide) (by decide)
      ⟨by decide, by decide, by decide⟩ (by decide) (by decide)).2.2,
    by decide, by decide, by decide, by decide, by decide, by decide, by decide, by decide⟩

end IfWg
